import Mathlib

/-!
# Verification of the Neuclear kernel core against its specification

This file gives a shallow embedding, in Lean 4, of the parts of the
Neuclear RISC-V kernel that the specification's claims are about, and
proves or refutes each claim against that embedding.

Each Rust function is translated into an executable Lean definition that
follows the source line by line (machine integers become `Nat`/`Int` with
explicit wrap-around where the source can overflow; panics become
`Option`/sum results; in-kernel shared state becomes explicit state
passing).  The theorems at the end of the file settle the claims.
-/

set_option maxRecDepth 100000

namespace Neuclear

/-! ## Block cache (`drivers/src/block/block_cache.rs`)

`BLOCK_SIZE` is 512 (u32).  A `BlockCache` holds a 512-byte array
`cache`, a `modified` (dirty) flag, and its `block_id`; the device
reference is irrelevant to the claims and omitted.  Buffer contents are
modelled as `List Nat` (each element one byte). -/

def BLOCK_SIZE : Nat := 512

structure BlockCache where
  cache : List Nat
  block_id : Nat
  modified : Bool
  deriving Repr, DecidableEq

namespace BlockCache

/-- `BlockCache::read(offset, buf)`: asserts `offset < BLOCK_SIZE`
(`none` models the panic), computes `nread = min(BLOCK_SIZE - offset,
buf.len() as u32)` and copies `cache[offset..offset+nread]` into the
front of `buf`.  Returns the value of `nread` and the resulting buffer
contents.  `buf.len() as u32` truncates, hence the `% 2^32`. -/
def read (c : BlockCache) (offset : Nat) (buf : List Nat) : Option (Nat × List Nat) :=
  if offset < BLOCK_SIZE then
    let nread := min (BLOCK_SIZE - offset) (buf.length % 2 ^ 32)
    some (nread, ((c.cache.drop offset).take nread) ++ buf.drop nread)
  else
    none

/-- `BlockCache::write(offset, buf)`: asserts `offset < BLOCK_SIZE`
(`none` models the panic), sets `modified` when `buf.len() != 0`,
computes `nwrite = min(BLOCK_SIZE - offset, buf.len() as u32)` and
copies `buf[..nwrite]` into `cache[offset..offset+nwrite]`.  Returns the
updated cache slot and the value of `nwrite`. -/
def write (c : BlockCache) (offset : Nat) (buf : List Nat) : Option (BlockCache × Nat) :=
  if offset < BLOCK_SIZE then
    let modified := c.modified || !buf.isEmpty
    let nwrite := min (BLOCK_SIZE - offset) (buf.length % 2 ^ 32)
    some ({ cache := c.cache.take offset ++ buf.take nwrite ++ c.cache.drop (offset + nwrite),
            block_id := c.block_id,
            modified := modified }, nwrite)
  else
    none

end BlockCache

/-! ## Block cache manager (`BlockCacheManager::get_block_cache`)

The manager's queue is a `Vec<(u64, Arc<Mutex<BlockCache>>)>`.  For the
cache-management claims only the `block_id` of each slot and the strong
count of the `Arc` holding it matter, so a queue is modelled as a list
of `(block_id, strong_count)` pairs.  The strong count of a slot is 1
exactly when nobody outside the manager holds the slot.  Between calls,
other kernel code may clone or drop its references, changing the counts
arbitrarily (but every count stays ≥ 1 because the queue itself holds
one reference); this is the `EnvStep` relation below. -/

def BLOCK_CACHE_SIZE : Nat := 16

/-- On a cache hit `Arc::clone(&pair.1)` bumps the strong count of the
first (and, by the uniqueness invariant, only) slot with this id. -/
def bumpFirst : List (Nat × Nat) → Nat → List (Nat × Nat)
  | [], _ => []
  | (i, n) :: rest, id => if i = id then (i, n + 1) :: rest else (i, n) :: bumpFirst rest id

/-- `iter().enumerate().find(..)`: index of the first element
satisfying the predicate. -/
def findIdx1 {α : Type} (p : α → Bool) : List α → Option Nat
  | [] => none
  | a :: l => if p a then some 0 else (findIdx1 p l).map (· + 1)

/-- `BlockCacheManager::get_block_cache(block_id, ..)`, one call.
`none` models the `"Run out of BlockCache!"` panic.  On a miss with a
full queue the code scans from the front for the first slot whose
`Arc::strong_count` is exactly 1 and removes it; the freshly created
slot is pushed at the back with strong count 2 (one reference in the
queue, one returned to the caller). -/
def getBlockCache (q : List (Nat × Nat)) (id : Nat) : Option (List (Nat × Nat)) :=
  if q.any (fun p => p.1 = id) then
    some (bumpFirst q id)
  else if q.length = BLOCK_CACHE_SIZE then
    match findIdx1 (fun p => p.2 = 1) q with
    | some i => some (q.eraseIdx i ++ [(id, 2)])
    | none => none
  else
    some (q ++ [(id, 2)])

/-- States of the block cache manager reachable from the initial empty
queue by any interleaving of `get_block_cache` calls and environment
activity (other holders cloning/dropping their `Arc`s, which changes
strong counts but neither ids nor order). -/
inductive ManagerReach : List (Nat × Nat) → Prop
  | init : ManagerReach []
  | env {q q' : List (Nat × Nat)} :
      ManagerReach q → q'.map Prod.fst = q.map Prod.fst → ManagerReach q'
  | call {q q' : List (Nat × Nat)} {id : Nat} :
      ManagerReach q → getBlockCache q id = some q' → ManagerReach q'

end Neuclear

namespace Neuclear

/-! Helper lemmas about the block cache manager. -/

theorem not_any_fst {q : List (Nat × Nat)} {id : Nat}
    (hhit : ¬ (q.any (fun p => p.1 = id)) = true) : id ∉ q.map Prod.fst := by
  intro hmem
  obtain ⟨p, hp, hpe⟩ := List.mem_map.mp hmem
  exact hhit (List.any_eq_true.mpr ⟨p, hp, by simp [hpe]⟩)

theorem bumpFirst_map_fst (q : List (Nat × Nat)) (id : Nat) :
    (bumpFirst q id).map Prod.fst = q.map Prod.fst := by
  induction q with
  | nil => rfl
  | cons p rest ih =>
    obtain ⟨i, n⟩ := p
    by_cases h : i = id <;> simp [bumpFirst, h, ih]

theorem findIdx1_some_spec {α : Type} {p : α → Bool} :
    ∀ {l : List α} {i : Nat}, findIdx1 p l = some i →
      ∃ h : i < l.length, p (l.get ⟨i, h⟩) = true := by
  intro l
  induction l with
  | nil => intro i h; simp [findIdx1] at h
  | cons a rest ih =>
    intro i h
    rw [findIdx1] at h
    by_cases hpa : p a
    · rw [if_pos hpa] at h
      injection h with h
      subst h
      exact ⟨by simp, by simpa using hpa⟩
    · rw [if_neg hpa] at h
      cases hrec : findIdx1 p rest with
      | none => rw [hrec] at h; simp at h
      | some j =>
        rw [hrec] at h
        simp only [Option.map_some'] at h
        injection h with h
        subst h
        obtain ⟨hlt, hp⟩ := ih hrec
        exact ⟨by simpa using hlt, by simpa using hp⟩

theorem findIdx1_none_spec {α : Type} {p : α → Bool} :
    ∀ {l : List α}, findIdx1 p l = none → ∀ x ∈ l, ¬ p x = true := by
  intro l
  induction l with
  | nil => simp
  | cons a rest ih =>
    intro h
    rw [findIdx1] at h
    by_cases hpa : p a
    · rw [if_pos hpa] at h; simp at h
    · rw [if_neg hpa] at h
      intro x hx
      rcases List.mem_cons.mp hx with rfl | hx'
      · simpa using hpa
      · cases hrec : findIdx1 p rest with
        | none => exact ih hrec x hx'
        | some j => rw [hrec] at h; simp at h

theorem getBlockCache_invariant {q q' : List (Nat × Nat)} {id : Nat}
    (hlen : q.length ≤ BLOCK_CACHE_SIZE) (hnodup : (q.map Prod.fst).Nodup)
    (hcall : getBlockCache q id = some q') :
    q'.length ≤ BLOCK_CACHE_SIZE ∧ (q'.map Prod.fst).Nodup := by
  unfold getBlockCache at hcall
  by_cases hhit : q.any (fun p => p.1 = id)
  · simp only [hhit, if_true] at hcall
    cases hcall
    constructor
    · have := bumpFirst_map_fst q id
      have hlen' : (bumpFirst q id).length = q.length := by
        have h1 := congrArg List.length (bumpFirst_map_fst q id)
        simpa using h1
      omega
    · rw [bumpFirst_map_fst]; exact hnodup
  · simp only [hhit, if_false] at hcall
    by_cases hfull : q.length = BLOCK_CACHE_SIZE
    · simp only [hfull, if_true] at hcall
      cases hidx : findIdx1 (fun p => p.2 = 1) q with
      | none => rw [hidx] at hcall; exact absurd hcall (by simp)
      | some i =>
        rw [hidx] at hcall
        cases hcall
        have hi : i < q.length := (findIdx1_some_spec hidx).1
        have herase : (q.eraseIdx i).length = q.length - 1 := List.length_eraseIdx_of_lt hi
        have hmiss : id ∉ (q.map Prod.fst) := not_any_fst hhit
        constructor
        · simp [herase, hfull, BLOCK_CACHE_SIZE]
        · have hsub : (q.eraseIdx i).Sublist q := List.eraseIdx_sublist q i
          have hnodup' : ((q.eraseIdx i).map Prod.fst).Nodup :=
            (hsub.map Prod.fst).nodup hnodup
          have hmiss' : id ∉ ((q.eraseIdx i).map Prod.fst) := fun hm =>
            hmiss ((hsub.map Prod.fst).subset hm)
          simpa [List.nodup_append] using And.intro hnodup' hmiss'
    · simp only [hfull, if_false] at hcall
      cases hcall
      have hmiss : id ∉ (q.map Prod.fst) := not_any_fst hhit
      constructor
      · have : q.length < BLOCK_CACHE_SIZE := lt_of_le_of_ne hlen hfull
        simp; omega
      · simpa [List.nodup_append] using And.intro hnodup hmiss

theorem managerReach_invariant {q : List (Nat × Nat)} (h : ManagerReach q) :
    q.length ≤ BLOCK_CACHE_SIZE ∧ (q.map Prod.fst).Nodup := by
  induction h with
  | init => simp [BLOCK_CACHE_SIZE]
  | env _ hmap ih =>
    have hlen : _ = _ := congrArg List.length hmap
    simp only [List.length_map] at hlen
    exact ⟨by omega, by rw [hmap]; exact ih.2⟩
  | call _ hcall ih => exact getBlockCache_invariant ih.1 ih.2 hcall



/-- C2: after any sequence of `get_block_cache` calls the manager's
queue holds at most 16 slots with at most one slot per `block_id`; when
the queue is full and a block not in the cache is requested, the call
removes some slot whose `Arc` strong count is exactly 1 before
inserting the new slot, and panics exactly when no slot has strong
count 1. -/
theorem sound_block_cache_manager :
    (∀ q, ManagerReach q → q.length ≤ BLOCK_CACHE_SIZE ∧ (q.map Prod.fst).Nodup) ∧
    (∀ (q : List (Nat × Nat)) (id : Nat),
      q.length = BLOCK_CACHE_SIZE → (q.any (fun p => p.1 = id)) = false →
      ((∀ q', getBlockCache q id = some q' →
          ∃ i, ∃ h : i < q.length, (q.get ⟨i, h⟩).2 = 1 ∧ q' = q.eraseIdx i ++ [(id, 2)]) ∧
       (getBlockCache q id = none ↔ ∀ p ∈ q, p.2 ≠ 1))) := by
  constructor
  · exact fun q h => managerReach_invariant h
  · intro q id hfull hmiss
    have hcond : ¬ ((q.any (fun p => p.1 = id)) = true) := by simp [hmiss]
    constructor
    · intro q' hcall
      unfold getBlockCache at hcall
      rw [if_neg hcond, if_pos hfull] at hcall
      cases hidx : findIdx1 (fun p => p.2 = 1) q with
      | none => rw [hidx] at hcall; exact absurd hcall (by simp)
      | some i =>
        rw [hidx] at hcall
        injection hcall with hcall
        obtain ⟨hlt, hp⟩ := findIdx1_some_spec hidx
        exact ⟨i, hlt, by simpa using hp, hcall.symm⟩
    · unfold getBlockCache
      rw [if_neg hcond, if_pos hfull]
      cases hidx : findIdx1 (fun p => p.2 = 1) q with
      | none =>
        simp only [eq_self_iff_true, true_iff]
        intro p hp
        have := findIdx1_none_spec hidx p hp
        simpa using this
      | some i =>
        constructor
        · intro h; exact absurd h (by simp)
        · intro hall
          obtain ⟨hlt, hp⟩ := findIdx1_some_spec hidx
          exact absurd (show (q.get ⟨i, hlt⟩).2 = 1 by simpa using hp)
            (hall _ (List.get_mem q i hlt))

/-- Witness for `sound_block_cache_manager` at concrete inputs: the
empty reachable queue, and a full 16-slot queue with distinct ids all
externally unreferenced, requesting absent id 99. -/
theorem sound_block_cache_manager_witness :
    (([] : List (Nat × Nat)).length ≤ BLOCK_CACHE_SIZE ∧
      (([] : List (Nat × Nat)).map Prod.fst).Nodup) ∧
    (((List.range 16).map (fun i => (i, 1))).length = BLOCK_CACHE_SIZE ∧
      (((List.range 16).map (fun i => (i, 1))).any (fun p => p.1 = 99)) = false) ∧
    (getBlockCache ((List.range 16).map (fun i => (i, 1))) 99 = none ↔
      ∀ p ∈ (List.range 16).map (fun i => (i, 1)), p.2 ≠ 1) :=
  ⟨sound_block_cache_manager.1 [] ManagerReach.init,
   ⟨by decide, by decide⟩,
   (sound_block_cache_manager.2 ((List.range 16).map (fun i => (i, 1))) 99
     (by decide) (by decide)).2⟩

/-- C10: `BlockCache::read`/`write` panic for `offset ≥ 512`; for
`offset < 512` they transfer exactly `min(512 - offset, buf.len())`
bytes, all accesses stay inside the 512-byte cache array, and `write`
marks the slot dirty exactly when it was dirty already or `buf` is
non-empty. -/
theorem sound_block_cache_rw (c : BlockCache) (offset : Nat) (buf : List Nat)
    (hc : c.cache.length = BLOCK_SIZE) :
    (BLOCK_SIZE ≤ offset → c.read offset buf = none ∧ c.write offset buf = none) ∧
    (offset < BLOCK_SIZE → buf.length < 2 ^ 32 →
      (∃ out, c.read offset buf = some (min (BLOCK_SIZE - offset) buf.length, out) ∧
        out.length = buf.length) ∧
      offset + min (BLOCK_SIZE - offset) buf.length ≤ BLOCK_SIZE ∧
      (∃ c', c.write offset buf = some (c', min (BLOCK_SIZE - offset) buf.length) ∧
        c'.cache.length = BLOCK_SIZE ∧
        c'.modified = (c.modified || !buf.isEmpty))) := by
  constructor
  · intro hge
    have : ¬ offset < BLOCK_SIZE := by omega
    constructor <;> simp [BlockCache.read, BlockCache.write, this]
  · intro hlt hlen
    have hmod : buf.length % 4294967296 = buf.length := Nat.mod_eq_of_lt (by omega)
    refine ⟨⟨(c.cache.drop offset).take (min (BLOCK_SIZE - offset) buf.length) ++
        buf.drop (min (BLOCK_SIZE - offset) buf.length), ?_, ?_⟩, ?_, ?_⟩
    · simp [BlockCache.read, hlt, hmod]
    · simp only [List.length_append, List.length_take, List.length_drop, hc]
      omega
    · omega
    · refine ⟨⟨c.cache.take offset ++
          buf.take (min (BLOCK_SIZE - offset) buf.length) ++
          c.cache.drop (offset + min (BLOCK_SIZE - offset) buf.length),
          c.block_id, c.modified || !buf.isEmpty⟩, ?_, ?_, rfl⟩
      · simp [BlockCache.write, hlt, hmod]
      · simp only [List.length_append, List.length_take, List.length_drop, hc]
        omega

/-- Witness for `sound_block_cache_rw`: a zeroed slot, reading and
writing 3 bytes at offset 10, and the panic at offset 600. -/
theorem sound_block_cache_rw_witness :
    ((⟨List.replicate 512 0, 0, false⟩ : BlockCache).cache.length = BLOCK_SIZE) ∧
    (BlockCache.read ⟨List.replicate 512 0, 0, false⟩ 600 [1, 2, 3] = none) ∧
    (∃ out, BlockCache.read ⟨List.replicate 512 0, 0, false⟩ 10 [1, 2, 3] =
        some (min (BLOCK_SIZE - 10) 3, out) ∧ out.length = 3) :=
  ⟨by simp [BLOCK_SIZE],
   ((sound_block_cache_rw ⟨List.replicate 512 0, 0, false⟩ 600 [1, 2, 3]
      (by simp [BLOCK_SIZE])).1 (by norm_num [BLOCK_SIZE])).1,
   (((sound_block_cache_rw ⟨List.replicate 512 0, 0, false⟩ 10 [1, 2, 3]
      (by simp [BLOCK_SIZE])).2 (by norm_num [BLOCK_SIZE]) (by norm_num)).1)⟩

end Neuclear

namespace Neuclear

/-! ## Errno values (`utils::error::code`) used by the embedded syscalls. -/

inductive Errno
  | EBADF | EISDIR | ECHILD | EINVAL | UNSUPPORTED | ENOENT | ENOTDIR
  | EEXIST | ENOMEM | TEMP | EFAULT | ERANGE
  deriving Repr, DecidableEq

/-! ## `sys_wait4` (`major/src/trap/syscall/process.rs`)

A child process is represented by the fields `sys_wait4` inspects:
its pid, its `is_zombie` flag and its recorded `exit_code` (an i32,
always set from `exit_code & 0xff`).  The parent's `children` vector is
a `List Child`.  One pass of the retry loop is embedded; the
`__suspend_curr_and_run_next()` branch is the `yield` outcome (the real
code then re-runs the same pass).  User-pointer translation of
`wstatus` is assumed to succeed; `rusage` is assumed null as the code
asserts. -/

structure Child where
  pid : Nat
  is_zombie : Bool
  exit_code : Int
  deriving Repr, DecidableEq

/-- `exit_code << 8` on an `i32`, with two's-complement wrap-around. -/
def i32shl8 (e : Int) : Int := (e * 256 + 2 ^ 31) % 2 ^ 32 - 2 ^ 31

/-- `pid == -1 || child.pid() == pid as usize` (under the assert
`pid == -1 || pid > 0`, the `as usize` cast is the identity). -/
def childMatches (pid : Int) (c : Child) : Bool :=
  pid = -1 || (c.pid : Int) = pid

/-- The scanning `for` loop of `sys_wait4`: computes
`has_proper_child` and `child_index` (the latter is overwritten on
every matching zombie, so it ends up the **last** matching zombie's
index).  `idx` is the index of the first element of the remaining
list. -/
def waitScan (pid : Int) : List Child → Nat → Bool × Option Nat
  | [], _ => (false, none)
  | c :: rest, idx =>
    let r := waitScan pid rest (idx + 1)
    (r.1 || childMatches pid c,
     match r.2 with
     | some j => some j
     | none => if childMatches pid c && c.is_zombie then some idx else none)

/-- Outcome of one pass of `sys_wait4`'s loop. -/
inductive Wait4Result
  | ret (pid : Nat) (children : List Child) (wstatus : Option Int)
  | zero
  | yield
  | err (e : Errno)
  deriving Repr, DecidableEq

/-- One pass of `sys_wait4(pid, wstatus, options, 0)`.  `none` models
the panic of the `assert!(pid == -1 || pid > 0)`.  `wstatusNull` is
whether the `wstatus` user pointer is null.  `options` is decoded as
`WaitFlags::from_bits(options as u32)`: unknown bits give `EINVAL`,
`WIMTRACED`/`WCONTINUED` give the unsupported error. -/
def sysWait4 (children : List Child) (pid : Int) (wstatusNull : Bool)
    (options : Nat) : Option Wait4Result :=
  if ¬ (pid = -1 ∨ 0 < pid) then none
  else
    let o := options % 2 ^ 32
    if (o &&& 4294967284) ≠ 0 then some (.err .EINVAL)
    else if o.testBit 1 || o.testBit 3 then some (.err .UNSUPPORTED)
    else
      let r := waitScan pid children 0
      if r.1 then
        match r.2 with
        | some i =>
          match children.get? i with
          | some c =>
            some (.ret c.pid (children.eraseIdx i)
              (if wstatusNull then none else some (i32shl8 c.exit_code)))
          | none => none
        | none =>
          if o.testBit 0 then some .zero else some .yield
      else
        some (.err .ECHILD)

end Neuclear

namespace Neuclear

/-! Helper lemmas about `waitScan`. -/

theorem waitScan_fst (pid : Int) :
    ∀ (l : List Child) (idx : Nat),
      (waitScan pid l idx).1 = l.any (childMatches pid) := by
  intro l
  induction l with
  | nil => intro idx; simp [waitScan]
  | cons c rest ih =>
    intro idx
    simp only [waitScan, List.any_cons, ih (idx + 1)]
    rw [Bool.or_comm]

theorem waitScan_snd_none (pid : Int) :
    ∀ (l : List Child) (idx : Nat),
      (waitScan pid l idx).2 = none ↔
        ∀ c ∈ l, ¬ (childMatches pid c = true ∧ c.is_zombie = true) := by
  intro l
  induction l with
  | nil => intro idx; simp [waitScan]
  | cons c rest ih =>
    intro idx
    simp only [waitScan]
    cases hci : (waitScan pid rest (idx + 1)).2 with
    | some j =>
      simp only [hci]
      constructor
      · intro h; exact absurd h (by simp)
      · intro hall
        have := (ih (idx + 1)).mpr (fun x hx => hall x (List.mem_cons_of_mem _ hx))
        rw [this] at hci
        exact absurd hci (by simp)
    | none =>
      simp only [hci]
      by_cases hz : childMatches pid c && c.is_zombie
      · rw [if_pos hz]
        constructor
        · intro h; exact absurd h (by simp)
        · intro hall
          exact absurd (by simpa using hz) (hall c (List.mem_cons_self c rest))
      · rw [if_neg hz]
        simp only [true_iff]
        intro x hx
        rcases List.mem_cons.mp hx with rfl | hx'
        · simpa using hz
        · exact ((ih (idx + 1)).mp hci) x hx'

theorem waitScan_snd_some (pid : Int) :
    ∀ (l : List Child) (idx k : Nat), (waitScan pid l idx).2 = some k →
      ∃ j, ∃ h : j < l.length, k = idx + j ∧
        childMatches pid (l.get ⟨j, h⟩) = true ∧
        (l.get ⟨j, h⟩).is_zombie = true := by
  intro l
  induction l with
  | nil => intro idx k h; simp [waitScan] at h
  | cons c rest ih =>
    intro idx k h
    simp only [waitScan] at h
    cases hci : (waitScan pid rest (idx + 1)).2 with
    | some j =>
      rw [hci] at h
      injection h with h
      subst h
      obtain ⟨j0, hlt, hkeq, hm, hz⟩ := ih (idx + 1) j hci
      refine ⟨j0 + 1, Nat.succ_lt_succ hlt, by omega, ?_, ?_⟩
      · rw [List.get_cons_succ]; exact hm
      · rw [List.get_cons_succ]; exact hz
    | none =>
      rw [hci] at h
      by_cases hz : childMatches pid c && c.is_zombie
      · rw [if_pos hz] at h
        injection h with h
        subst h
        obtain ⟨hm, hzz⟩ : childMatches pid c = true ∧ c.is_zombie = true := by
          simpa using hz
        exact ⟨0, by simp, by omega, by simpa using hm, by simpa using hzz⟩
      · rw [if_neg hz] at h
        exact absurd h (by simp)

end Neuclear

namespace Neuclear

/-- C3: one pass of `sys_wait4` matches any child for `pid = -1` and
the exact pid for `pid > 0`; a matching zombie child is removed from
the `children` vector, `exit_code << 8` is written to `*wstatus` when
non-null, and its pid is returned; matching children none of which are
zombies with `WNOHANG` unset lead to a yield-and-retry; no matching
children at all give `ECHILD`. -/
theorem sound_sys_wait4 (children : List Child) (pid : Int) (wstatusNull : Bool)
    (options : Nat)
    (hpid : pid = -1 ∨ 0 < pid)
    (hbits : (options % 4294967296) &&& 4294967284 = 0)
    (htrace : (options % 4294967296).testBit 1 = false ∧
      (options % 4294967296).testBit 3 = false) :
    (∀ c, childMatches (-1) c = true) ∧
    (0 < pid → ∀ c, (childMatches pid c = true ↔ (c.pid : Int) = pid)) ∧
    ((∃ c ∈ children, childMatches pid c = true ∧ c.is_zombie = true) →
      ∃ j, ∃ h : j < children.length,
        childMatches pid (children.get ⟨j, h⟩) = true ∧
        (children.get ⟨j, h⟩).is_zombie = true ∧
        sysWait4 children pid wstatusNull options =
          some (.ret (children.get ⟨j, h⟩).pid (children.eraseIdx j)
            (if wstatusNull then none
             else some (i32shl8 (children.get ⟨j, h⟩).exit_code)))) ∧
    ((∃ c ∈ children, childMatches pid c = true) →
      (∀ c ∈ children, childMatches pid c = true → c.is_zombie = false) →
      (options % 4294967296).testBit 0 = false →
      sysWait4 children pid wstatusNull options = some .yield) ∧
    ((∀ c ∈ children, childMatches pid c = false) →
      sysWait4 children pid wstatusNull options = some (.err .ECHILD)) := by
  have hstep : sysWait4 children pid wstatusNull options =
      (if (waitScan pid children 0).1 then
         match (waitScan pid children 0).2 with
         | some i =>
           match children.get? i with
           | some c =>
             some (.ret c.pid (children.eraseIdx i)
               (if wstatusNull then none else some (i32shl8 c.exit_code)))
           | none => none
         | none =>
           if (options % 4294967296).testBit 0 then some .zero else some .yield
       else some (.err .ECHILD)) := by
    unfold sysWait4
    rw [if_neg (not_not_intro hpid), if_neg (by simp [hbits]),
      if_neg (by simp [htrace.1, htrace.2])]
    norm_num
  refine ⟨?_, ?_, ?_, ?_, ?_⟩
  · intro c; simp [childMatches]
  · intro hpos c
    simp only [childMatches, Bool.or_eq_true, decide_eq_true_eq]
    constructor
    · rintro (h1 | h1)
      · omega
      · exact h1
    · intro h; exact Or.inr h
  · rintro ⟨c, hc, hm, hz⟩
    have hprop : (waitScan pid children 0).1 = true := by
      rw [waitScan_fst]
      exact List.any_eq_true.mpr ⟨c, hc, hm⟩
    cases hsnd : (waitScan pid children 0).2 with
    | none =>
      exact absurd ⟨hm, hz⟩ ((waitScan_snd_none pid children 0).mp hsnd c hc)
    | some k =>
      obtain ⟨j, hj, hk, hm', hz'⟩ := waitScan_snd_some pid children 0 k hsnd
      obtain rfl : j = k := by omega
      refine ⟨j, hj, hm', hz', ?_⟩
      rw [hstep]
      simp only [hprop, if_true, hsnd, List.get?_eq_get hj]
  · rintro ⟨c, hc, hm⟩ hnz hnohang
    have hprop : (waitScan pid children 0).1 = true := by
      rw [waitScan_fst]
      exact List.any_eq_true.mpr ⟨c, hc, hm⟩
    have hsnd : (waitScan pid children 0).2 = none := by
      rw [waitScan_snd_none]
      intro x hx ⟨hxm, hxz⟩
      rw [hnz x hx hxm] at hxz
      exact absurd hxz (by simp)
    rw [hstep]
    simp [hprop, hsnd, hnohang]
  · intro hnone
    have hprop : (waitScan pid children 0).1 = false := by
      rw [waitScan_fst]
      exact List.any_eq_false.mpr (fun c hc => by simp [hnone c hc])
    rw [hstep]
    simp [hprop]

/-- Witness for `sound_sys_wait4`: a single zombie child with pid 5 and
exit code 7, reaped by `wait4(-1, wstatus, 0, 0)`; the status word is
`7 << 8 = 1792`. -/
theorem sound_sys_wait4_witness :
    sysWait4 [⟨5, true, 7⟩] (-1) false 0 = some (.ret 5 [] (some 1792)) := by
  have h := (sound_sys_wait4 [⟨5, true, 7⟩] (-1) false 0 (Or.inl rfl) (by decide)
    ⟨by decide, by decide⟩).2.2.1 ⟨⟨5, true, 7⟩, by simp, by decide, rfl⟩
  obtain ⟨j, hj, hm, hz, hres⟩ := h
  have hj0 : j = 0 := by simp at hj; omega
  subst hj0
  rw [hres]
  norm_num [i32shl8]

end Neuclear

namespace Neuclear

/-! ## `brk` (`major/src/task/process.rs::set_user_brk`,
`trap/syscall/process.rs::sys_brk`)

The process heap state consists of the fixed `heap_start` page, the
recorded `brk` byte address, and the heap `MapArea` (tracked here by
its end page, `none` while absent).  `VirtAddr::vpn_ceil` is
`(addr - 1 + PAGE_SIZE) / PAGE_SIZE` on a wrapping `usize`
(`mm/address.rs`). -/

def PAGE_SIZE : Nat := 4096

/-- `VirtAddr(a).vpn_ceil()`: `(a - 1 + 4096) / 4096` with `usize`
wrap-around (so `vpn_ceil 0 = 0`). -/
def vpnCeil (a : Nat) : Nat :=
  ((a + (2 ^ 64 - 1)) % 2 ^ 64 + PAGE_SIZE) % 2 ^ 64 / PAGE_SIZE

structure ProcBrk where
  heap_start : Nat
  brk : Nat
  heapEnd : Option Nat
  deriving Repr, DecidableEq

/-- `MemorySet::set_user_brk(new_end, heap_start)`
(`memory/src/memory_set.rs`): shrinks or expands the heap area to end
at `new_end`, inserting it if absent.  Either way the heap area ends at
`new_end` afterwards. -/
def memorySetUserBrk (heapEnd : Option Nat) (newEnd : Nat) : Option Nat :=
  match heapEnd with
  | some _ => some newEnd
  | none => some newEnd

/-- `ProcessControlBlockInner::set_user_brk(new_brk)`: if
`vpn_ceil(new_brk) ≤ heap_start` the call fails and returns the
current `brk` unchanged; otherwise the heap area is resized, `brk` is
set to `new_brk` and returned. -/
def setUserBrk (p : ProcBrk) (newBrk : Nat) : ProcBrk × Nat :=
  let newEnd := vpnCeil newBrk
  if newEnd ≤ p.heap_start then
    (p, p.brk)
  else
    ({ heap_start := p.heap_start, brk := newBrk,
       heapEnd := memorySetUserBrk p.heapEnd newEnd }, newBrk)

/-- `sys_brk(brk)` simply returns `set_user_brk(brk)` as the syscall
result. -/
def sysBrk (p : ProcBrk) (newBrk : Nat) : ProcBrk × Nat :=
  setUserBrk p newBrk

end Neuclear

namespace Neuclear

/-- C6 counterexample: with `heap_start = 16` (so the initial break is
`X = 65536`), `brk(0)` returns `X` and `brk(X + 8192)` returns
`X + 8192`, but the subsequent failed call `brk(X - 1)` returns the
**current** break `X + 8192`, not `X` as the claim states. -/
theorem brk_scenario_counterexample :
    (sysBrk ⟨16, 65536, none⟩ 0).2 = 65536 ∧
    (sysBrk ⟨16, 65536, none⟩ (65536 + 8192)).2 = 65536 + 8192 ∧
    (sysBrk (sysBrk ⟨16, 65536, none⟩ (65536 + 8192)).1 (65536 - 1)).2 = 65536 + 8192 ∧
    (sysBrk (sysBrk ⟨16, 65536, none⟩ (65536 + 8192)).1 (65536 - 1)).2 ≠ 65536 := by
  refine ⟨?_, ?_, ?_, ?_⟩ <;> decide

/-- C6 (amended): in the brk-growth scenario, `brk(0)` returns the
initial break `X = heap_start * PAGE_SIZE` and `brk(X + 8192)` returns
`X + 8192`; the subsequent call `brk(X - 1)` fails, returning the
current break `X + 8192`, and leaves the whole heap state — the
recorded `brk` and the heap mapping — unchanged. -/
theorem sound_brk_scenario (h : Nat) (hpos : 0 < h) (hbound : h < 2 ^ 50) :
    (sysBrk ⟨h, h * PAGE_SIZE, none⟩ 0).2 = h * PAGE_SIZE ∧
    (sysBrk ⟨h, h * PAGE_SIZE, none⟩ 0).1 = ⟨h, h * PAGE_SIZE, none⟩ ∧
    (sysBrk ⟨h, h * PAGE_SIZE, none⟩ (h * PAGE_SIZE + 8192)).2 = h * PAGE_SIZE + 8192 ∧
    (sysBrk (sysBrk ⟨h, h * PAGE_SIZE, none⟩ (h * PAGE_SIZE + 8192)).1
        (h * PAGE_SIZE - 1)) =
      ((sysBrk ⟨h, h * PAGE_SIZE, none⟩ (h * PAGE_SIZE + 8192)).1,
        h * PAGE_SIZE + 8192) := by
  have hps : PAGE_SIZE = 4096 := rfl
  have hc0 : vpnCeil 0 = 0 := by decide
  have hc1 : vpnCeil (h * PAGE_SIZE + 8192) = h + 2 := by
    unfold vpnCeil
    rw [hps]
    have h1 : h * 4096 + 8192 + (2 ^ 64 - 1) < 2 * 2 ^ 64 := by
      have hm : h * 4096 ≤ (2 ^ 50 - 1) * 4096 :=
        Nat.mul_le_mul_right 4096 (by omega)
      omega
    have h2 : 2 ^ 64 ≤ h * 4096 + 8192 + (2 ^ 64 - 1) := by omega
    have hmod : (h * 4096 + 8192 + (2 ^ 64 - 1)) % 2 ^ 64 =
        h * 4096 + 8192 + (2 ^ 64 - 1) - 2 ^ 64 := by
      omega
    rw [hmod]
    have hlt : h * 4096 + 8192 + (2 ^ 64 - 1) - 2 ^ 64 + 4096 < 2 ^ 64 := by omega
    rw [Nat.mod_eq_of_lt hlt]
    omega
  have hc2 : vpnCeil (h * PAGE_SIZE - 1) = h := by
    unfold vpnCeil
    rw [hps]
    have hge : 4096 ≤ h * 4096 := by
      calc 4096 = 1 * 4096 := by norm_num
        _ ≤ h * 4096 := Nat.mul_le_mul_right _ hpos
    have h1 : h * 4096 < 2 ^ 63 := by
      have hm : h * 4096 ≤ (2 ^ 50 - 1) * 4096 :=
        Nat.mul_le_mul_right 4096 (by omega)
      omega
    have h2 : 2 ^ 64 ≤ h * 4096 - 1 + (2 ^ 64 - 1) := by omega
    have hmod : (h * 4096 - 1 + (2 ^ 64 - 1)) % 2 ^ 64 =
        h * 4096 - 1 + (2 ^ 64 - 1) - 2 ^ 64 := by omega
    rw [hmod]
    have hlt : h * 4096 - 1 + (2 ^ 64 - 1) - 2 ^ 64 + 4096 < 2 ^ 64 := by omega
    rw [Nat.mod_eq_of_lt hlt]
    omega
  refine ⟨?_, ?_, ?_, ?_⟩
  · simp [sysBrk, setUserBrk, hc0]
  · simp [sysBrk, setUserBrk, hc0]
  · simp only [sysBrk, setUserBrk, hc1]
    rw [if_neg (by omega)]
  · have hinner : (sysBrk ⟨h, h * PAGE_SIZE, none⟩ (h * PAGE_SIZE + 8192)).1 =
        ⟨h, h * PAGE_SIZE + 8192, some (h + 2)⟩ := by
      simp only [sysBrk, setUserBrk, hc1]
      rw [if_neg (by omega)]
      rfl
    rw [hinner]
    simp only [sysBrk, setUserBrk, hc2]
    rw [if_pos (by omega)]

/-- Witness for `sound_brk_scenario` at `heap_start = 16`
(`X = 65536`). -/
theorem sound_brk_scenario_witness :
    0 < 16 ∧ 16 < 2 ^ 50 ∧
    (sysBrk ⟨16, 16 * PAGE_SIZE, none⟩ 0).2 = 16 * PAGE_SIZE ∧
    (sysBrk (sysBrk ⟨16, 16 * PAGE_SIZE, none⟩ (16 * PAGE_SIZE + 8192)).1
        (16 * PAGE_SIZE - 1)) =
      ((sysBrk ⟨16, 16 * PAGE_SIZE, none⟩ (16 * PAGE_SIZE + 8192)).1,
        16 * PAGE_SIZE + 8192) := by
  have h := sound_brk_scenario 16 (by norm_num) (by norm_num)
  exact ⟨by norm_num, by norm_num, h.1, h.2.2.2⟩

end Neuclear

namespace Neuclear

/-! ## `MemorySet::try_map` with `fixed = false`
(`memory/src/memory_set.rs`)

The memory set's `areas: BTreeMap<VirtPageNum, MapArea>` is modelled by
the list of `(start_vpn, end_vpn)` ranges of its regions, in ascending
start order (BTreeMap iteration order).  The constants `MMAP_START`
and `LOW_END` are from `utils::config` (stated in the specification:
the mmap region is `[0x20_0000_0000, 0x40_0000_0000)`; the user half
ends at `2^38`). -/

def MMAP_START : Nat := 0x2000000000
def LOW_END : Nat := 0x4000000000
def MMAP_VPN : Nat := MMAP_START / PAGE_SIZE
def LOW_END_VPN : Nat := LOW_END / PAGE_SIZE

/-- The scanning `for` loop of `try_map` (`fixed = false`): `start`
begins at the mmap base; for each region in start order, if the region
starts strictly above the candidate and the candidate fits below
`LOW_END`, either the gap before the region is large enough (return
the candidate) or the candidate moves to the region's end.  Falling
off the loop is `ENOMEM`. -/
def tryMapGo (len : Nat) : List (Nat × Nat) → Nat → Option Nat
  | [], _ => none
  | (s, e) :: rest, start =>
    if s > start ∧ start + len ≤ LOW_END_VPN then
      if start + len ≤ s then some start
      else tryMapGo len rest e
    else
      tryMapGo len rest start

/-- The start VPN chosen by `try_map(vpn_range, perm, false)` for a
request of `len` pages, or `none` for `ENOMEM`. -/
def tryMapStart (areas : List (Nat × Nat)) (len : Nat) : Option Nat :=
  tryMapGo len areas MMAP_VPN

/-- `BTreeMap::insert` keyed by start VPN (replaces an equal key). -/
def insertArea : List (Nat × Nat) → Nat × Nat → List (Nat × Nat)
  | [], a => [a]
  | b :: rest, a =>
    if a.1 < b.1 then a :: b :: rest
    else if a.1 = b.1 then a :: rest
    else b :: insertArea rest a

/-- `try_map(vpn_range, perm, false)`: on success inserts the
anonymous framed region `[st, st+len)` and returns the byte address
`st.page_start()`. -/
def tryMapFixedFalse (areas : List (Nat × Nat)) (len : Nat) :
    Option (Nat × List (Nat × Nat)) :=
  (tryMapStart areas len).map (fun st => (st * PAGE_SIZE, insertArea areas (st, st + len)))

/-- Regions in ascending start order, non-empty, strictly separated. -/
def AreasSep : List (Nat × Nat) → Prop
  | [] => True
  | [p] => p.1 < p.2
  | p :: q :: rest => p.1 < p.2 ∧ p.2 < q.1 ∧ AreasSep (q :: rest)

end Neuclear

namespace Neuclear

theorem areasSep_tail {p : Nat × Nat} {rest : List (Nat × Nat)}
    (h : AreasSep (p :: rest)) : AreasSep rest := by
  cases rest with
  | nil => trivial
  | cons q rest' => exact h.2.2

theorem areasSep_head_lt {p : Nat × Nat} {rest : List (Nat × Nat)}
    (h : AreasSep (p :: rest)) : ∀ q ∈ rest, p.2 < q.1 := by
  induction rest generalizing p with
  | nil => simp
  | cons q rest' ih =>
    intro r hr
    rcases List.mem_cons.mp hr with rfl | hr'
    · exact h.2.1
    · have hq := ih (p := q) h.2.2 r hr'
      have hq2 : q.1 < q.2 := by
        cases rest' with
        | nil => exact h.2.2
        | cons _ _ => exact h.2.2.1
      have hpq : p.2 < q.1 := h.2.1
      omega

theorem areasSep_head_pos {p : Nat × Nat} {rest : List (Nat × Nat)}
    (h : AreasSep (p :: rest)) : p.1 < p.2 := by
  cases rest with
  | nil => exact h
  | cons _ _ => exact h.1

/-- If the candidate already violates the `LOW_END` bound, the scan
never succeeds (the candidate is only ever re-used unchanged in that
case). -/
theorem tryMapGo_bound_none (len : Nat) :
    ∀ (l : List (Nat × Nat)) (start : Nat),
      ¬ (start + len ≤ LOW_END_VPN) → tryMapGo len l start = none := by
  intro l
  induction l with
  | nil => intro start _; rfl
  | cons p rest ih =>
    intro start hb
    obtain ⟨s, e⟩ := p
    show tryMapGo len ((s, e) :: rest) start = none
    rw [tryMapGo, if_neg (by tauto)]
    exact ih start hb

/-- If every region starts at or below the candidate, the scan fails
(the first loop condition never fires). -/
theorem tryMapGo_all_low_none (len : Nat) :
    ∀ (l : List (Nat × Nat)) (start : Nat),
      (∀ p ∈ l, p.1 ≤ start) → tryMapGo len l start = none := by
  intro l
  induction l with
  | nil => intro start _; rfl
  | cons p rest ih =>
    intro start hlow
    obtain ⟨s, e⟩ := p
    show tryMapGo len ((s, e) :: rest) start = none
    have hs : s ≤ start := hlow (s, e) (List.mem_cons_self _ _)
    rw [tryMapGo, if_neg (by omega)]
    exact ih start (fun p hp => hlow p (List.mem_cons_of_mem _ hp))

theorem tryMapGo_sound (len : Nat) (hlen : 0 < len) :
    ∀ (l : List (Nat × Nat)) (start st : Nat),
      AreasSep l →
      (∀ p ∈ l, p.2 ≤ start ∨ start < p.1) →
      tryMapGo len l start = some st →
      start ≤ st ∧ st + len ≤ LOW_END_VPN ∧
        ∀ p ∈ l, p.2 ≤ st ∨ st + len ≤ p.1 := by
  intro l
  induction l with
  | nil => intro start st _ _ h; simp [tryMapGo] at h
  | cons p rest ih =>
    intro start st hsep hstr h
    obtain ⟨s, e⟩ := p
    rw [tryMapGo] at h
    by_cases hcond : s > start ∧ start + len ≤ LOW_END_VPN
    · rw [if_pos hcond] at h
      by_cases hgap : start + len ≤ s
      · rw [if_pos hgap] at h
        injection h with h
        subst h
        refine ⟨le_refl _, hcond.2, ?_⟩
        intro q hq
        rcases List.mem_cons.mp hq with rfl | hq'
        · exact Or.inr hgap
        · have h1 : e < q.1 := areasSep_head_lt hsep q hq'
          have h2 : s < e := areasSep_head_pos hsep
          exact Or.inr (by omega)
      · rw [if_neg hgap] at h
        have hstr' : ∀ q ∈ rest, q.2 ≤ e ∨ e < q.1 := fun q hq =>
          Or.inr (areasSep_head_lt hsep q hq)
        obtain ⟨h1, h2, h3⟩ := ih e st (areasSep_tail hsep) hstr' h
        have h4 : s < e := areasSep_head_pos hsep
        refine ⟨by omega, h2, ?_⟩
        intro q hq
        rcases List.mem_cons.mp hq with rfl | hq'
        · exact Or.inl (by omega)
        · exact h3 q hq'
    · rw [if_neg hcond] at h
      have hstr' : ∀ q ∈ rest, q.2 ≤ start ∨ start < q.1 := fun q hq =>
        hstr q (List.mem_cons_of_mem _ hq)
      obtain ⟨h1, h2, h3⟩ := ih start st (areasSep_tail hsep) hstr' h
      refine ⟨h1, h2, ?_⟩
      intro q hq
      rcases List.mem_cons.mp hq with rfl | hq'
      · rcases hstr (s, e) (List.mem_cons_self _ _) with hl | hr
        · exact Or.inl (by omega)
        · exfalso
          have hb : ¬ (start + len ≤ LOW_END_VPN) := by
            rcases not_and_or.mp hcond with hc | hc
            · exact absurd hr (by omega)
            · exact hc
          rw [tryMapGo_bound_none len rest start hb] at h
          exact absurd h (by simp)
      · exact h3 q hq'

/-- C5 counterexample: with no mapped regions at all, a one-page
request fits trivially inside `[0x20_0000_0000, 0x40_0000_0000)`, yet
`try_map(fixed=false)` returns `ENOMEM` instead of mapping at the
base. -/
theorem try_map_base_counterexample :
    tryMapFixedFalse [] 1 = none ∧
    MMAP_VPN + 1 ≤ LOW_END_VPN ∧
    tryMapStart [] 1 ≠ some MMAP_VPN := by
  refine ⟨rfl, by norm_num [MMAP_VPN, LOW_END_VPN, MMAP_START, LOW_END, PAGE_SIZE], by simp [tryMapStart, tryMapGo]⟩

/-- C5 (amended): scanning the regions in start-VPN order from the
base `0x20_0000_0000`, a successful `try_map(fixed=false)` returns a
start VPN at or above the base whose requested range fits below
`0x40_0000_0000` and (for strictly separated regions, none straddling
the base) overlaps no existing region, inserting the anonymous framed
region there; but a gap is recognised only immediately below a region
lying strictly above the candidate: whenever every region starts at or
below the base — in particular when there are no regions at all — the
call returns `ENOMEM` even if the request would fit. -/
theorem sound_try_map (areas : List (Nat × Nat)) (len : Nat) (hlen : 0 < len)
    (hsep : AreasSep areas)
    (hbase : ∀ p ∈ areas, p.2 ≤ MMAP_VPN ∨ MMAP_VPN < p.1) :
    (∀ st, tryMapStart areas len = some st →
      MMAP_VPN ≤ st ∧ st + len ≤ LOW_END_VPN ∧
      (∀ p ∈ areas, p.2 ≤ st ∨ st + len ≤ p.1) ∧
      tryMapFixedFalse areas len =
        some (st * PAGE_SIZE, insertArea areas (st, st + len))) ∧
    ((∀ p ∈ areas, p.1 ≤ MMAP_VPN) → tryMapFixedFalse areas len = none) := by
  constructor
  · intro st hst
    obtain ⟨h1, h2, h3⟩ := tryMapGo_sound len hlen areas MMAP_VPN st hsep hbase hst
    exact ⟨h1, h2, h3, by rw [tryMapFixedFalse, hst]; rfl⟩
  · intro hlow
    rw [tryMapFixedFalse, tryMapStart, tryMapGo_all_low_none len areas MMAP_VPN hlow]
    rfl

/-- Witness for `sound_try_map`: a single stack-like region just below
the top of the user half; a 3-page request is placed at the mmap
base itself. -/
theorem sound_try_map_witness :
    (0 < 3 ∧ AreasSep [(67108800, 67108862)] ∧
      ((67108862 : Nat) ≤ MMAP_VPN ∨ MMAP_VPN < 67108800)) ∧
    (MMAP_VPN ≤ 33554432 ∧ 33554432 + 3 ≤ LOW_END_VPN ∧
      ((67108862 : Nat) ≤ 33554432 ∨ 33554432 + 3 ≤ 67108800) ∧
      tryMapFixedFalse [(67108800, 67108862)] 3 =
        some (33554432 * PAGE_SIZE, insertArea [(67108800, 67108862)] (33554432, 33554432 + 3))) := by
  have happ := (sound_try_map [(67108800, 67108862)] 3 (by norm_num)
    (by norm_num [AreasSep])
    (by intro p hp; simp at hp; subst hp; right; norm_num [MMAP_VPN, MMAP_START, PAGE_SIZE])).1
    33554432 (by decide)
  refine ⟨⟨by norm_num, by norm_num [AreasSep], ?_⟩, ?_⟩
  · right; norm_num [MMAP_VPN, MMAP_START, PAGE_SIZE]
  · have h3 := happ.2.2.1 (67108800, 67108862) (by simp)
    exact ⟨happ.1, happ.2.1, by simpa using h3, happ.2.2.2⟩

end Neuclear

namespace Neuclear

/-! ## `sys_writev` and `prepare_io` (`major/src/trap/syscall/fs.rs`)

An open file is represented by the observations `prepare_io` makes:
`readable()`, `writable()`, `is_dir()`.  The actual byte sink is an
abstract function `wfun` giving the number of bytes each
`file.write(buf)` call reports; the embedding also returns the list of
buffers actually handed to `file.write`, so that "no bytes are
transferred" is observable. -/

structure FileObj where
  readable : Bool
  writable : Bool
  is_dir : Bool
  deriving Repr, DecidableEq

/-- `prepare_io(fd, is_read)`: the descriptor must be occupied and the
file must be readable (when `is_read`) / writable (when not); then
directories are rejected with `EISDIR`; otherwise the file is
returned.  Everything else is `EBADF`. -/
def prepareIO (fdTable : List (Option FileObj)) (fd : Nat) (isRead : Bool) :
    Except Errno FileObj :=
  match fdTable.get? fd with
  | some (some file) =>
    if (isRead && file.readable) || (!isRead && file.writable) then
      if file.is_dir then .error .EISDIR else .ok file
    else .error .EBADF
  | _ => .error .EBADF

/-- The accumulation loop of `sys_writev`: write each iovec buffer in
turn, stopping at the first zero-byte transfer; returns the total and
the log of buffers passed to `file.write`. -/
def writevLoop (wfun : List Nat → Nat) : List (List Nat) → Nat × List (List Nat)
  | [] => (0, [])
  | iov :: rest =>
    let n := wfun iov
    if n = 0 then (0, [])
    else
      let r := writevLoop wfun rest
      (n + r.1, iov :: r.2)

/-- `sys_writev(fd, iovec, vlen)` — note that it calls
`prepare_io(fd, true)`, i.e. it gates the descriptor on *readability*.
User-pointer checks of the iovec array are assumed to pass. -/
def sysWritev (fdTable : List (Option FileObj)) (fd : Nat)
    (iovs : List (List Nat)) (wfun : List Nat → Nat) :
    Except Errno (Nat × List (List Nat)) :=
  match prepareIO fdTable fd true with
  | .error e => .error e
  | .ok _ => .ok (writevLoop wfun iovs)

/-- C8: `sys_writev` gates the descriptor on `readable()` rather than
`writable()`: a write-only open file (e.g. a pipe's write end) gives
`EBADF` with no buffer ever handed to `file.write`, and a successful
`sys_writev` implies the file at `fd` reported `readable() = true`. -/
theorem sound_sys_writev_gate (fdTable : List (Option FileObj)) (fd : Nat)
    (iovs : List (List Nat)) (wfun : List Nat → Nat) :
    (∀ f, fdTable.get? fd = some (some f) →
      f.writable = true → f.readable = false →
      sysWritev fdTable fd iovs wfun = .error .EBADF) ∧
    (∀ n log, sysWritev fdTable fd iovs wfun = .ok (n, log) →
      ∃ f, fdTable.get? fd = some (some f) ∧ f.readable = true) := by
  constructor
  · intro f hf hw hr
    unfold sysWritev prepareIO
    rw [hf]
    simp [hr]
  · intro n log hok
    unfold sysWritev prepareIO at hok
    cases hfd : fdTable.get? fd with
    | none => rw [hfd] at hok; exact absurd hok (by simp)
    | some o =>
      cases o with
      | none => rw [hfd] at hok; exact absurd hok (by simp)
      | some f =>
        rw [hfd] at hok
        by_cases hr : f.readable
        · exact ⟨f, rfl, hr⟩
        · simp [hr] at hok

/-- Witness for `sound_sys_writev_gate`: a pipe write end
(`readable = false`, `writable = true`, not a directory) at fd 0. -/
theorem sound_sys_writev_gate_witness :
    ([some ⟨false, true, false⟩] : List (Option FileObj)).get? 0 =
      some (some ⟨false, true, false⟩) ∧
    sysWritev [some ⟨false, true, false⟩] 0 [[1, 2, 3]] List.length =
      .error .EBADF :=
  ⟨rfl,
   (sound_sys_writev_gate [some ⟨false, true, false⟩] 0 [[1, 2, 3]] List.length).1
     ⟨false, true, false⟩ rfl rfl rfl⟩

end Neuclear

namespace Neuclear

/-! ## Close-on-exec sharing (`sys_fcntl64`, `sys_dup`, `InodeFile`)

Open-file objects are shared: descriptor-table slots hold `Arc`s to
them.  The model separates the two levels: `files` is the pool of
open-file objects, each carrying the `O_CLOEXEC` bit of its
`InodeFileInner::flags` (the only state these claims need), and
`table` maps each descriptor to the index of its file object.  `dup`
and `F_DUPFD` copy the index (an `Arc::clone`);
`set_close_on_exec`/`status` read and write the shared object. -/

structure FdState where
  files : List Bool
  table : List (Option Nat)
  deriving Repr, DecidableEq

/-- `InodeFile::set_close_on_exec(bit)`: sets the `O_CLOEXEC` flag in
the shared open-file object. -/
def setCloseOnExec (s : FdState) (i : Nat) (b : Bool) : FdState :=
  { s with files := s.files.set i b }

/-- `file.status().contains(O_CLOEXEC)` observed through descriptor
`fd`. -/
def statusCloexec (s : FdState) (fd : Nat) : Option Bool :=
  match s.table.get? fd with
  | some (some i) => s.files.get? i
  | _ => none

/-- The scan-or-push part of `alloc_fd_from`: take the first free slot
at or after `min`, or push a new one. -/
def allocFdFromExt (ext : List (Option Nat)) (min : Nat) : Nat × List (Option Nat) :=
  match findIdx1 (fun o => o.isNone) (ext.drop min) with
  | some j => (min + j, ext)
  | none => (ext.length, ext ++ [none])

/-- `alloc_fd_from(min)`: extend the table to length ≥ `min`, then take
the first free slot at or after `min`, or push a new one. -/
def allocFdFrom (table : List (Option Nat)) (min : Nat) : Nat × List (Option Nat) :=
  allocFdFromExt
    (if min > table.length
      then table ++ List.replicate (min - table.length) none
      else table) min

/-- `sys_dup(fd)`: clone the `Arc` in slot `fd` into the lowest free
slot.  Errors (modelled as `none`) if the slot is missing or empty. -/
def sysDup (s : FdState) (fd : Nat) : Option (Nat × FdState) :=
  match s.table.get? fd with
  | some (some i) =>
    let r := allocFdFrom s.table 0
    some (r.1, { s with table := r.2.set r.1 (some i) })
  | _ => none

/-- `sys_fcntl64(fd, F_SETFD, arg)`: calls
`file.set_close_on_exec(arg & 1 != 0)` on the shared file object. -/
def sysFcntlSetFd (s : FdState) (fd : Nat) (arg : Nat) : Option FdState :=
  match s.table.get? fd with
  | some (some i) => some (setCloseOnExec s i (arg % 2 = 1))
  | _ => none

/-- `sys_fcntl64(fd, F_GETFD)`: reports 1 iff the shared file object
has `O_CLOEXEC` set. -/
def sysFcntlGetFd (s : FdState) (fd : Nat) : Option Nat :=
  match s.table.get? fd with
  | some (some i) => some (if s.files.getD i false then 1 else 0)
  | _ => none

/-- `sys_fcntl64(fd, F_DUPFD_CLOEXEC, arg)`: duplicates into a slot
≥ `arg` and sets close-on-exec **on the shared object**. -/
def sysFcntlDupFdCloexec (s : FdState) (fd : Nat) (arg : Nat) :
    Option (Nat × FdState) :=
  match s.table.get? fd with
  | some (some i) =>
    let s' := setCloseOnExec s i true
    let r := allocFdFrom s'.table arg
    some (r.1, { s' with table := r.2.set r.1 (some i) })
  | _ => none

end Neuclear

namespace Neuclear

/-- The slot chosen by `alloc_fd_from` is inside the resulting table,
is free, and extension preserves every occupied slot. -/
theorem allocFdFrom_spec (table : List (Option Nat)) (min : Nat) :
    (allocFdFrom table min).1 < (allocFdFrom table min).2.length ∧
    (allocFdFrom table min).2.get? (allocFdFrom table min).1 = some none ∧
    (∀ k v, table.get? k = some (some v) →
      (allocFdFrom table min).2.get? k = some (some v)) := by
  unfold allocFdFrom allocFdFromExt
  set ext := if min > table.length
    then table ++ List.replicate (min - table.length) none
    else table with hext
  have hpres : ∀ k v, table.get? k = some (some v) → ext.get? k = some (some v) := by
    intro k v hk
    have hklt : k < table.length := by
      by_contra hge
      rw [List.get?_eq_none.mpr (by omega)] at hk
      exact absurd hk (by simp)
    rw [hext]
    split
    · rw [List.get?_eq_getElem?, List.getElem?_append_left hklt,
        ← List.get?_eq_getElem?]
      exact hk
    · exact hk
  cases hidx : findIdx1 (fun o => o.isNone) (ext.drop min) with
  | some j =>
    obtain ⟨hlt, hp⟩ := findIdx1_some_spec hidx
    have hjlen : min + j < ext.length := by
      have := List.length_drop min ext ▸ hlt
      omega
    refine ⟨hjlen, ?_, hpres⟩
    have hget : ext.get? (min + j) = some ((ext.drop min).get ⟨j, hlt⟩) := by
      rw [← List.get?_drop]
      exact List.get?_eq_get hlt
    have hnone : (ext.drop min).get ⟨j, hlt⟩ = none := by
      have := hp
      simp only [Option.isNone_iff_eq_none] at this
      exact this
    rw [hget, hnone]
  | none =>
    refine ⟨by simp, ?_, ?_⟩
    · rw [List.get?_eq_getElem?]
      exact List.getElem?_concat_length ext none
    · intro k v hk
      have h1 := hpres k v hk
      have hklt : k < ext.length := by
        by_contra hge
        rw [List.get?_eq_none.mpr (by omega)] at h1
        exact absurd h1 (by simp)
      rw [List.get?_eq_getElem?, List.getElem?_append_left hklt,
        ← List.get?_eq_getElem?]
      exact h1

/-- C9: the close-on-exec flag lives in the shared open-file object:
`sys_dup` makes the new descriptor alias the same object (leaving the
flag pool untouched); setting the flag through one descriptor with
`F_SETFD` (bit 0 set) makes `status()` report `O_CLOEXEC` — and
`F_GETFD` report 1 — through every descriptor aliasing the same
object; `F_DUPFD_CLOEXEC` likewise sets the shared flag, observed
through the old descriptor as well as the new one. -/
theorem sound_cloexec_shared (s : FdState) (fd fd' : Nat) (i : Nat) (arg : Nat)
    (hi : i < s.files.length) :
    (s.table.get? fd = some (some i) →
      ∃ newFd s', sysDup s fd = some (newFd, s') ∧ s'.files = s.files ∧
        s'.table.get? newFd = some (some i) ∧
        s'.table.get? fd = some (some i)) ∧
    (s.table.get? fd = some (some i) → s.table.get? fd' = some (some i) →
      arg % 2 = 1 →
      ∃ s', sysFcntlSetFd s fd arg = some s' ∧
        statusCloexec s' fd' = some true ∧
        sysFcntlGetFd s' fd' = some 1) ∧
    (s.table.get? fd = some (some i) →
      ∃ newFd s', sysFcntlDupFdCloexec s fd arg = some (newFd, s') ∧
        statusCloexec s' fd = some true ∧
        statusCloexec s' newFd = some true) := by
  refine ⟨?_, ?_, ?_⟩
  · intro hfd
    obtain ⟨ha, hb, hc⟩ := allocFdFrom_spec s.table 0
    refine ⟨(allocFdFrom s.table 0).1,
      { s with table := (allocFdFrom s.table 0).2.set (allocFdFrom s.table 0).1 (some i) },
      ?_, rfl, ?_, ?_⟩
    · unfold sysDup
      rw [hfd]
    · exact List.get?_set_eq_of_lt _ ha
    · have hne : (allocFdFrom s.table 0).1 ≠ fd := by
        intro he
        rw [he] at hb
        rw [hc fd i hfd] at hb
        exact absurd hb (by simp)
      rw [List.get?_set_ne _ _ hne]
      exact hc fd i hfd
  · intro hfd hfd' harg
    refine ⟨setCloseOnExec s i (arg % 2 = 1), ?_, ?_, ?_⟩
    · unfold sysFcntlSetFd
      rw [hfd]
    · simp only [statusCloexec, setCloseOnExec, hfd']
      have hb : (decide (arg % 2 = 1) : Bool) = true := by simp [harg]
      rw [hb]
      exact List.get?_set_eq_of_lt _ (by simpa using hi)
    · have hgetd : (s.files.set i (decide (arg % 2 = 1))).getD i false = true := by
        rw [List.getD_eq_getD_get?, List.get?_set_eq_of_lt _ (by simpa using hi)]
        simp [harg]
      simp only [sysFcntlGetFd, setCloseOnExec, hfd']
      rw [if_pos hgetd]
  · intro hfd
    have hfiles : (setCloseOnExec s i true).table = s.table := rfl
    obtain ⟨ha, hb, hc⟩ := allocFdFrom_spec (setCloseOnExec s i true).table arg
    rw [hfiles] at ha hb hc
    refine ⟨(allocFdFrom s.table arg).1,
      { setCloseOnExec s i true with
        table := (allocFdFrom s.table arg).2.set (allocFdFrom s.table arg).1 (some i) },
      ?_, ?_, ?_⟩
    · unfold sysFcntlDupFdCloexec
      rw [hfd]
      rfl
    · unfold statusCloexec
      simp only
      have hne : (allocFdFrom s.table arg).1 ≠ fd := by
        intro he
        rw [he] at hb
        rw [hc fd i hfd] at hb
        exact absurd hb (by simp)
      rw [List.get?_set_ne _ _ hne, hc fd i hfd]
      unfold setCloseOnExec
      exact List.get?_set_eq_of_lt _ (by simpa using hi)
    · unfold statusCloexec
      simp only
      rw [List.get?_set_eq_of_lt _ ha]
      unfold setCloseOnExec
      exact List.get?_set_eq_of_lt _ (by simpa using hi)

/-- Witness for `sound_cloexec_shared`: one shared file object (flag
clear) aliased by descriptors 0 and 1; `F_SETFD` with `arg = 1`
through fd 0 makes fd 1 report close-on-exec set. -/
theorem sound_cloexec_shared_witness :
    (0 : Nat) < ([false] : List Bool).length ∧
    (∃ s', sysFcntlSetFd ⟨[false], [some 0, some 0]⟩ 0 1 = some s' ∧
      statusCloexec s' 1 = some true ∧
      sysFcntlGetFd s' 1 = some 1) :=
  ⟨by simp,
   (sound_cloexec_shared ⟨[false], [some 0, some 0]⟩ 0 1 0 1 (by simp)).2.1
     rfl rfl rfl⟩

end Neuclear

namespace Neuclear

/-! ## Pipe ring buffer and `Pipe::write`
(`filesystem/src/pipe.rs`)

The 32-byte ring with `head`, `tail` and a three-valued status.
`Pipe::write` is embedded as a step function: one activation of the
calling thread runs the outer `loop` until it either returns
(`WStep.ret`) or drops the lock and calls
`__suspend_curr_and_run_next()` (`WStep.suspend`, carrying the bytes
still to be written); when the thread is scheduled again the function
resumes as `pipeWriteGo` on the (possibly drained) buffer. -/

def RING_BUFFER_SIZE : Nat := 32

inductive RingBufferStatus
  | Full | Empty | Normal
  deriving Repr, DecidableEq

structure PipeRingBuffer where
  arr : List Nat
  head : Nat
  tail : Nat
  status : RingBufferStatus
  deriving Repr, DecidableEq

namespace PipeRingBuffer

/-- `PipeRingBuffer::write_byte` (caller guarantees the buffer is not
full). -/
def writeByte (rb : PipeRingBuffer) (b : Nat) : PipeRingBuffer :=
  let arr := rb.arr.set rb.tail b
  let tail := (rb.tail + 1) % RING_BUFFER_SIZE
  { arr := arr, head := rb.head, tail := tail,
    status := if rb.head = tail then .Full else .Normal }

/-- `PipeRingBuffer::available_read`. -/
def availableRead (rb : PipeRingBuffer) : Nat :=
  match rb.status with
  | .Empty => 0
  | _ => if rb.tail > rb.head then rb.tail - rb.head
         else rb.tail + RING_BUFFER_SIZE - rb.head

/-- `PipeRingBuffer::available_write`. -/
def availableWrite (rb : PipeRingBuffer) : Nat :=
  RING_BUFFER_SIZE - availableRead rb

end PipeRingBuffer

/-- Writing a run of bytes one by one. -/
def pushBytes (rb : PipeRingBuffer) (l : List Nat) : PipeRingBuffer :=
  l.foldl PipeRingBuffer.writeByte rb

/-- How one activation of `Pipe::write` ends. -/
inductive WStep
  | suspend (rb : PipeRingBuffer) (remaining : List Nat) (written : Nat)
  | ret (n : Nat) (rb : PipeRingBuffer)
  deriving Repr, DecidableEq

/-- The outer `loop` of `Pipe::write`, starting with `write_size =
written` and `buf_iter` positioned at `buf`: if no space is available
the thread suspends; otherwise the inner `for` writes
`min(loop_write, buf.len())` bytes and the call returns only if the
iterator was exhausted strictly before `loop_write` bytes; otherwise
the outer loop re-checks the (now exhausted) capacity. -/
def pipeWriteGo (rb : PipeRingBuffer) (buf : List Nat) (written : Nat) : WStep :=
  if h0 : rb.availableWrite = 0 then .suspend rb buf written
  else if h1 : buf.length < rb.availableWrite then
    .ret (written + buf.length) (pushBytes rb buf)
  else
    pipeWriteGo (pushBytes rb (buf.take rb.availableWrite))
      (buf.drop rb.availableWrite) (written + rb.availableWrite)
  termination_by buf.length
  decreasing_by simp only [List.length_drop]; omega

end Neuclear

namespace Neuclear

/-- C4 counterexample: writing 33 bytes into an empty pipe: the first
activation copies the 32 bytes that fit and then **suspends again**
with one byte left over, instead of returning 32 as the claim
states. -/
theorem pipe_write_counterexample :
    pipeWriteGo ⟨List.replicate 32 0, 0, 0, .Empty⟩ (List.replicate 33 7) 0 =
      .suspend ⟨List.replicate 32 7, 0, 0, .Full⟩ [7] 32 ∧
    pipeWriteGo ⟨List.replicate 32 0, 0, 0, .Empty⟩ (List.replicate 33 7) 0 ≠
      .ret 32 ⟨List.replicate 32 7, 0, 0, .Full⟩ := by
  have h1 : pipeWriteGo ⟨List.replicate 32 0, 0, 0, .Empty⟩ (List.replicate 33 7) 0 =
      pipeWriteGo ⟨List.replicate 32 7, 0, 0, .Full⟩ [7] 32 := by
    rw [pipeWriteGo]
    rw [dif_neg (by decide), dif_neg (by decide)]
    norm_num [PipeRingBuffer.availableWrite, PipeRingBuffer.availableRead,
      RING_BUFFER_SIZE]
    congr 1 <;> decide
  have h2 : pipeWriteGo ⟨List.replicate 32 7, 0, 0, .Full⟩ [7] 32 =
      .suspend ⟨List.replicate 32 7, 0, 0, .Full⟩ [7] 32 := by
    rw [pipeWriteGo]
    rw [dif_pos (by decide)]
  rw [h1, h2]
  exact ⟨rfl, by simp⟩

end Neuclear

namespace Neuclear

/-- C4 (amended): `Pipe::write` blocks until space is available and,
each time space exists, copies as many bytes as fit; but it returns
only when the **entire** supplied buffer has been copied — the return
value is always `written + buf.len()` — and when the buffer is longer
than the space available it suspends again within the same call, the
leftover bytes still pending.  It completes without any further
blocking in a single activation exactly when the buffer is strictly
shorter than the available space. -/
theorem sound_pipe_write (rb : PipeRingBuffer) (buf : List Nat) (written : Nat) :
    (∀ n rb', pipeWriteGo rb buf written = .ret n rb' → n = written + buf.length) ∧
    (∀ rb' rest w', pipeWriteGo rb buf written = .suspend rb' rest w' →
      w' + rest.length = written + buf.length) ∧
    (buf.length < rb.availableWrite →
      pipeWriteGo rb buf written = .ret (written + buf.length) (pushBytes rb buf)) := by
  refine ⟨?_, ?_, ?_⟩
  · intro n rb' h
    induction rb, buf, written using pipeWriteGo.induct with
    | case1 rb buf written h0 =>
      rw [pipeWriteGo, dif_pos h0] at h
      exact absurd h (by simp)
    | case2 rb buf written h0 h1 =>
      rw [pipeWriteGo, dif_neg h0, dif_pos h1] at h
      injection h with h _
      exact h.symm
    | case3 rb buf written h0 h1 ih =>
      rw [pipeWriteGo, dif_neg h0, dif_neg h1] at h
      have := ih h
      simp only [List.length_drop] at this
      omega
  · intro rb' rest w' h
    induction rb, buf, written using pipeWriteGo.induct with
    | case1 rb buf written h0 =>
      rw [pipeWriteGo, dif_pos h0] at h
      injection h with h1 h2 h3
      subst h2
      subst h3
      omega
    | case2 rb buf written h0 h1 =>
      rw [pipeWriteGo, dif_neg h0, dif_pos h1] at h
      exact absurd h (by simp)
    | case3 rb buf written h0 h1 ih =>
      rw [pipeWriteGo, dif_neg h0, dif_neg h1] at h
      have := ih h
      simp only [List.length_drop] at this
      omega
  · intro hfit
    rw [pipeWriteGo, dif_neg (by omega), dif_pos hfit]

/-- Witness for `sound_pipe_write`: four bytes into an empty ring
return 4 in a single activation. -/
theorem sound_pipe_write_witness :
    ([1, 2, 3, 4] : List Nat).length <
      PipeRingBuffer.availableWrite ⟨List.replicate 32 0, 0, 0, .Empty⟩ ∧
    pipeWriteGo ⟨List.replicate 32 0, 0, 0, .Empty⟩ [1, 2, 3, 4] 0 =
      .ret (0 + ([1, 2, 3, 4] : List Nat).length)
        (pushBytes ⟨List.replicate 32 0, 0, 0, .Empty⟩ [1, 2, 3, 4]) :=
  ⟨by decide,
   (sound_pipe_write ⟨List.replicate 32 0, 0, 0, .Empty⟩ [1, 2, 3, 4] 0).2.2 (by decide)⟩

end Neuclear

namespace Neuclear

/-! ## `open_inode` (`filesystem/src/inode.rs`) over the VFS

The on-disk state is a tree of directory entries; file contents are
irrelevant to the open-path claims.  `Fat32Entry::find` looks a name
up in a directory (`InvalidType` on a non-directory);
`Fat32Entry::create` — the trait method `open_inode` calls when the
final component is missing under `O_CREAT` — is implemented with
`dir.create_file(name)` (`fat32/src/lib.rs`), i.e. it always creates a
**regular file**.  Flag bit positions follow `OpenFlags` in
`inode.rs`: `O_CREAT = 1<<6`, `O_EXCL = 1<<7`, `O_TRUNC = 1<<9`,
`O_DIRECTORY = 1<<16`. -/

inductive FsEntry
  | file
  | dir (entries : List (String × FsEntry))

def FsEntry.isDir : FsEntry → Bool
  | .file => false
  | .dir _ => true

/-- `Fat32Entry::find` restricted to one directory level: the first
entry with the given name. -/
def findEntry : List (String × FsEntry) → String → Option FsEntry
  | [], _ => none
  | (n, e) :: rest, name => if n = name then some e else findEntry rest name

/-- What `open_inode` hands back to `InodeFile::new`. -/
inductive OpenOutcome
  | opened (e : FsEntry)
  | created (name : String) (e : FsEntry)

/-- `open_inode(path, flags)`, on the list of `path.split('/')`
components.  The walk `find`s each component; a missing **final**
component is created via `curr.create(name)` when `O_CREAT` is set
(`create` = `create_file`, producing `FsEntry.file`), otherwise
`ENOENT`; a missing non-final component is `ENOENT`; descending into a
non-directory is `ENOTDIR`.  After the walk: `O_CREAT|O_EXCL` on an
existing entry is `EEXIST`, `O_DIRECTORY` on a non-directory is
`ENOTDIR` (`O_TRUNC`'s `clear()` does not affect the outcome kind). -/
def openInode (cur : FsEntry) (comps : List String) (flags : Nat) :
    Except Errno OpenOutcome :=
  match comps with
  | [] =>
    if flags.testBit 6 ∧ flags.testBit 7 then .error .EEXIST
    else if flags.testBit 16 ∧ ¬ cur.isDir then .error .ENOTDIR
    else .ok (.opened cur)
  | name :: rest =>
    match cur with
    | .file => .error .ENOTDIR
    | .dir entries =>
      match findEntry entries name with
      | some next => openInode next rest flags
      | none =>
        if rest.isEmpty ∧ flags.testBit 6 then
          .ok (.created name .file)
        else .error .ENOENT

/-- C7 (code bug): opening the missing path `"newdir"` in an empty
root with `O_CREAT | O_DIRECTORY` (`= 2^6 + 2^16 = 65600`) creates a
**regular file**, not a directory — `open_inode` reaches
`curr.create(name)` without consulting `O_DIRECTORY`, and `create` is
`create_file`.  The claim (and `sys_mkdirat`, which calls
`open_file(path, O_CREAT | O_DIRECTORY)` to make a directory) expects
a directory entry. -/
theorem open_inode_creat_directory_makes_file :
    openInode (.dir []) ["newdir"] 65600 = .ok (.created "newdir" .file) ∧
    FsEntry.isDir .file = false := by
  constructor
  · rfl
  · rfl

end Neuclear

namespace Neuclear

/-! ## Sv39 page table (`kernel/src/memory/page_table.rs`)

Physical memory is modelled as `mem : Nat → Nat → Nat`, giving the PTE
bits stored at slot `idx` of the page-table frame `ppn` (each frame
holds 512 eight-byte entries).  Frames are handed out by a
monotonically increasing allocator `nextFree`; `FrameTracker::new`
zero-fills every freshly allocated frame
(`mm/frame_allocator.rs`), which `zeroFrame` models.  PTE bits follow
`PageTableEntry`: `bits = ppn << 10 | flags` on a wrapping 64-bit
word, `ppn() = (bits >> 10) & ((1 << 44) - 1)`, `V` is bit 0.
`VirtPageNum::indexes` splits the 27-bit VPN into three 9-bit indices,
most significant first. -/

def pteValid (b : Nat) : Bool := b % 2 = 1

def ptePpn (b : Nat) : Nat := b / 1024 % 2 ^ 44

def pteFlags (b : Nat) : Nat := b % 256

/-- `PageTableEntry::new(ppn, flags)`: `ppn.0 << 10 | flags.bits`, with
the shift wrapping at 64 bits and `flags` an 8-bit value. -/
def mkPTE (p f : Nat) : Nat := p % 2 ^ 54 * 1024 + f % 256

def idx0 (vpn : Nat) : Nat := vpn / 2 ^ 18 % 512
def idx1 (vpn : Nat) : Nat := vpn / 2 ^ 9 % 512
def idx2 (vpn : Nat) : Nat := vpn % 512

structure PT where
  root : Nat
  mem : Nat → Nat → Nat
  nextFree : Nat

/-- Store `v` into slot `i` of frame `p`. -/
def writeCell (m : Nat → Nat → Nat) (p i v : Nat) : Nat → Nat → Nat :=
  fun p' i' => if p' = p ∧ i' = i then v else m p' i'

/-- Zero-fill frame `p` (frame allocation cleans the page). -/
def zeroFrame (m : Nat → Nat → Nat) (p : Nat) : Nat → Nat → Nat :=
  fun p' i' => if p' = p then 0 else m p' i'

/-- One level of `find_pte_create`: read the PTE, and if it is not
valid, allocate a zero frame and store `PageTableEntry::new(frame.ppn,
V)`; either way return the next level's ppn as `pte.ppn()` reads it
back. -/
def fpcLevel (s : PT) (parent idx : Nat) : PT × Nat :=
  let b := s.mem parent idx
  if pteValid b then (s, ptePpn b)
  else
    let f := s.nextFree
    let m := writeCell (zeroFrame s.mem f) parent idx (mkPTE f 1)
    (⟨s.root, m, s.nextFree + 1⟩, ptePpn (mkPTE f 1))

/-- `PageTable::find_pte_create(vpn)`: walk two levels creating
missing nodes, return the leaf location (frame, index). -/
def findPteCreate (s : PT) (vpn : Nat) : PT × Nat × Nat :=
  let r0 := fpcLevel s s.root (idx0 vpn)
  let r1 := fpcLevel r0.1 r0.2 (idx1 vpn)
  (r1.1, r1.2, idx2 vpn)

/-- `PageTable::map(vpn, ppn, flags)`: `none` models the
`"is mapped before mapping"` assertion panic; otherwise the leaf
becomes `PageTableEntry::new(ppn, flags | V)`. -/
def mapPT (s : PT) (vpn ppn flags : Nat) : Option PT :=
  let r := findPteCreate s vpn
  if pteValid (r.1.mem r.2.1 r.2.2) then none
  else some ⟨r.1.root, writeCell r.1.mem r.2.1 r.2.2 (mkPTE ppn (flags ||| 1)), r.1.nextFree⟩

/-- `PageTable::unmap(vpn)`: `none` models the
`"is invalid before unmapping"` assertion panic; otherwise the leaf is
cleared. -/
def unmapPT (s : PT) (vpn : Nat) : Option PT :=
  let r := findPteCreate s vpn
  if pteValid (r.1.mem r.2.1 r.2.2) then
    some ⟨r.1.root, writeCell r.1.mem r.2.1 r.2.2 0, r.1.nextFree⟩
  else none

/-- `PageTable::translate(vpn)` via `find_pte`: walk the three levels,
requiring a valid PTE at each, and return the leaf's ppn. -/
def translatePT (s : PT) (vpn : Nat) : Option Nat :=
  if pteValid (s.mem s.root (idx0 vpn)) then
    if pteValid (s.mem (ptePpn (s.mem s.root (idx0 vpn))) (idx1 vpn)) then
      if pteValid (s.mem (ptePpn (s.mem (ptePpn (s.mem s.root (idx0 vpn)))
          (idx1 vpn))) (idx2 vpn)) then
        some (ptePpn (s.mem (ptePpn (s.mem (ptePpn (s.mem s.root (idx0 vpn)))
          (idx1 vpn))) (idx2 vpn)))
      else none
    else none
  else none

/-- The flag byte of the leaf PTE reached by the same walk. -/
def translateFlags (s : PT) (vpn : Nat) : Option Nat :=
  if pteValid (s.mem s.root (idx0 vpn)) then
    if pteValid (s.mem (ptePpn (s.mem s.root (idx0 vpn))) (idx1 vpn)) then
      if pteValid (s.mem (ptePpn (s.mem (ptePpn (s.mem s.root (idx0 vpn)))
          (idx1 vpn))) (idx2 vpn)) then
        some (pteFlags (s.mem (ptePpn (s.mem (ptePpn (s.mem s.root (idx0 vpn)))
          (idx1 vpn))) (idx2 vpn)))
      else none
    else none
  else none

/-- `PageTable::new()`: a single zeroed root frame from a fresh
allocator. -/
def newPT : PT := ⟨0, fun _ _ => 0, 1⟩

/-- The level-1 node reached from root slot `i`, when that PTE is
valid. -/
def Node1 (s : PT) (i : Nat) : Option Nat :=
  let b := s.mem s.root i
  if pteValid b then some (ptePpn b) else none

/-- The level-2 (leaf-table) node reached via root slot `i` and
level-1 slot `j`. -/
def Node2 (s : PT) (i j : Nat) : Option Nat :=
  match Node1 s i with
  | some n =>
    let b := s.mem n j
    if pteValid b then some (ptePpn b) else none
  | none => none

/-- Well-formedness of a page table built by this code: all table
nodes are allocated (below `nextFree`), distinct from the root and
from each other — the table is a tree. -/
def Inv (s : PT) : Prop :=
  s.root < s.nextFree ∧
  (∀ i n, Node1 s i = some n → n < s.nextFree ∧ n ≠ s.root) ∧
  (∀ i j n, Node2 s i j = some n → n < s.nextFree ∧ n ≠ s.root) ∧
  (∀ i i' n, Node1 s i = some n → Node1 s i' = some n → i = i') ∧
  (∀ i j i' j' n, Node2 s i j = some n → Node2 s i' j' = some n → i = i' ∧ j = j') ∧
  (∀ i i' j' n, Node1 s i = some n → Node2 s i' j' = some n → False)

end Neuclear

namespace Neuclear

theorem writeCell_self (m : Nat → Nat → Nat) (p i v : Nat) :
    writeCell m p i v p i = v := by simp [writeCell]

theorem writeCell_ne_frame {p' p : Nat} (m : Nat → Nat → Nat) (i v i' : Nat)
    (h : p' ≠ p) : writeCell m p i v p' i' = m p' i' := by
  simp [writeCell, h]

theorem writeCell_ne_idx {i' i : Nat} (m : Nat → Nat → Nat) (p v p' : Nat)
    (h : i' ≠ i) : writeCell m p i v p' i' = m p' i' := by
  simp [writeCell, h]

theorem zeroFrame_self (m : Nat → Nat → Nat) (p i : Nat) :
    zeroFrame m p p i = 0 := by simp [zeroFrame]

theorem zeroFrame_ne {p' p : Nat} (m : Nat → Nat → Nat) (i' : Nat)
    (h : p' ≠ p) : zeroFrame m p p' i' = m p' i' := by
  simp [zeroFrame, h]

theorem ptePpn_mkPTE {p : Nat} (f : Nat) (hp : p < 2 ^ 44) :
    ptePpn (mkPTE p f) = p := by
  simp only [ptePpn, mkPTE]
  omega

theorem pteValid_mkPTE_or_one (p f : Nat) :
    pteValid (mkPTE p (f ||| 1)) = true := by
  have h2 : (f ||| 1) % 2 = 1 := Nat.or_mod_two_eq_one.mpr (Or.inr rfl)
  simp only [pteValid, mkPTE, decide_eq_true_eq]
  omega

theorem pteValid_mkPTE_one (p : Nat) : pteValid (mkPTE p 1) = true := by
  simp only [pteValid, mkPTE, decide_eq_true_eq]
  omega

theorem pteFlags_mkPTE (p g : Nat) : pteFlags (mkPTE p g) = g % 256 := by
  simp only [pteFlags, mkPTE]
  omega

theorem pteValid_zero : pteValid 0 = false := by decide

theorem idx0_lt (vpn : Nat) : idx0 vpn < 512 := Nat.mod_lt _ (by norm_num)
theorem idx1_lt (vpn : Nat) : idx1 vpn < 512 := Nat.mod_lt _ (by norm_num)
theorem idx2_lt (vpn : Nat) : idx2 vpn < 512 := Nat.mod_lt _ (by norm_num)

/-- Two 27-bit VPNs with identical Sv39 indices are equal. -/
theorem vpn_ext {vpn vpn' : Nat} (h0 : vpn < 2 ^ 27) (h0' : vpn' < 2 ^ 27)
    (e0 : idx0 vpn = idx0 vpn') (e1 : idx1 vpn = idx1 vpn')
    (e2 : idx2 vpn = idx2 vpn') : vpn = vpn' := by
  simp only [idx0, idx1, idx2] at e0 e1 e2
  omega

end Neuclear

namespace Neuclear

/-- `find_pte_create` when both intermediate PTEs are valid: nothing
is allocated; the leaf table is the existing level-2 node. -/
theorem fpc_valid_valid {s : PT} {vpn : Nat}
    (h0 : pteValid (s.mem s.root (idx0 vpn)) = true)
    (h1 : pteValid (s.mem (ptePpn (s.mem s.root (idx0 vpn))) (idx1 vpn)) = true) :
    findPteCreate s vpn =
      (s, ptePpn (s.mem (ptePpn (s.mem s.root (idx0 vpn))) (idx1 vpn)), idx2 vpn) := by
  simp only [findPteCreate, fpcLevel, h0, if_true, h1]

/-- `find_pte_create` when the root PTE is valid but the level-1 PTE
is not: one fresh zeroed frame is allocated and linked. -/
theorem fpc_valid_invalid {s : PT} {vpn : Nat}
    (h0 : pteValid (s.mem s.root (idx0 vpn)) = true)
    (h1 : pteValid (s.mem (ptePpn (s.mem s.root (idx0 vpn))) (idx1 vpn)) = false)
    (hnf : s.nextFree < 2 ^ 44) :
    findPteCreate s vpn =
      (⟨s.root,
        writeCell (zeroFrame s.mem s.nextFree)
          (ptePpn (s.mem s.root (idx0 vpn))) (idx1 vpn) (mkPTE s.nextFree 1),
        s.nextFree + 1⟩,
       s.nextFree, idx2 vpn) := by
  simp only [findPteCreate, fpcLevel, h0, if_true, h1, if_false, Bool.false_eq_true,
    ptePpn_mkPTE 1 hnf]

/-- `find_pte_create` when the root PTE is invalid: two fresh zeroed
frames are allocated and linked (the freshly created level-1 node is
zero, hence its PTE for the walk is also invalid). -/
theorem fpc_invalid {s : PT} {vpn : Nat}
    (h0 : pteValid (s.mem s.root (idx0 vpn)) = false)
    (hroot : s.root < s.nextFree)
    (hnf : s.nextFree + 1 < 2 ^ 44) :
    findPteCreate s vpn =
      (⟨s.root,
        writeCell
          (zeroFrame
            (writeCell (zeroFrame s.mem s.nextFree) s.root (idx0 vpn)
              (mkPTE s.nextFree 1))
            (s.nextFree + 1))
          s.nextFree (idx1 vpn) (mkPTE (s.nextFree + 1) 1),
        s.nextFree + 2⟩,
       s.nextFree + 1, idx2 vpn) := by
  have hb1 : (writeCell (zeroFrame s.mem s.nextFree) s.root (idx0 vpn)
      (mkPTE s.nextFree 1)) s.nextFree (idx1 vpn) = 0 := by
    rw [writeCell_ne_frame _ _ _ _ (by omega)]
    exact zeroFrame_self _ _ _
  simp only [findPteCreate, fpcLevel, h0, if_false, Bool.false_eq_true,
    ptePpn_mkPTE 1 (by omega : s.nextFree < 2 ^ 44), hb1, pteValid_zero,
    ptePpn_mkPTE 1 hnf]

end Neuclear

namespace Neuclear

/-- Destructor for a successful `translate`: all three PTEs on the
walk are valid and the result is the leaf's ppn. -/
theorem translate_some_elim {s : PT} {vpn p : Nat}
    (h : translatePT s vpn = some p) :
    pteValid (s.mem s.root (idx0 vpn)) = true ∧
    pteValid (s.mem (ptePpn (s.mem s.root (idx0 vpn))) (idx1 vpn)) = true ∧
    pteValid (s.mem (ptePpn (s.mem (ptePpn (s.mem s.root (idx0 vpn)))
      (idx1 vpn))) (idx2 vpn)) = true ∧
    p = ptePpn (s.mem (ptePpn (s.mem (ptePpn (s.mem s.root (idx0 vpn)))
      (idx1 vpn))) (idx2 vpn)) := by
  unfold translatePT at h
  by_cases c0 : pteValid (s.mem s.root (idx0 vpn)) = true
  · by_cases c1 : pteValid (s.mem (ptePpn (s.mem s.root (idx0 vpn))) (idx1 vpn)) = true
    · by_cases c2 : pteValid (s.mem (ptePpn (s.mem (ptePpn (s.mem s.root (idx0 vpn)))
          (idx1 vpn))) (idx2 vpn)) = true
      · simp only [c0, if_true, c1, c2, Option.some.injEq] at h
        exact ⟨c0, c1, c2, h.symm⟩
      · simp [c0, c1, c2] at h
    · simp [c0, c1] at h
  · simp [c0] at h

/-- `translate` only looks at the three cells on the walk (reading
deeper cells only under validity of the shallower ones). -/
theorem translatePT_congr {s s' : PT} {vpn : Nat}
    (hroot : s'.root = s.root)
    (h0 : s'.mem s.root (idx0 vpn) = s.mem s.root (idx0 vpn))
    (h1 : pteValid (s.mem s.root (idx0 vpn)) = true →
      s'.mem (ptePpn (s.mem s.root (idx0 vpn))) (idx1 vpn) =
      s.mem (ptePpn (s.mem s.root (idx0 vpn))) (idx1 vpn))
    (h2 : pteValid (s.mem s.root (idx0 vpn)) = true →
      pteValid (s.mem (ptePpn (s.mem s.root (idx0 vpn))) (idx1 vpn)) = true →
      s'.mem (ptePpn (s.mem (ptePpn (s.mem s.root (idx0 vpn))) (idx1 vpn))) (idx2 vpn) =
      s.mem (ptePpn (s.mem (ptePpn (s.mem s.root (idx0 vpn))) (idx1 vpn))) (idx2 vpn)) :
    translatePT s' vpn = translatePT s vpn := by
  unfold translatePT
  rw [hroot, h0]
  by_cases c0 : pteValid (s.mem s.root (idx0 vpn)) = true
  · rw [h1 c0]
    by_cases c1 : pteValid (s.mem (ptePpn (s.mem s.root (idx0 vpn))) (idx1 vpn)) = true
    · rw [h2 c0 c1]
    · simp [c0, c1]
  · simp [c0]

/-- `map` panics (`none`) when the vpn is already mapped. -/
theorem mapPT_mapped_panics {s : PT} {vpn ppn flags p : Nat}
    (h : translatePT s vpn = some p) :
    mapPT s vpn ppn flags = none := by
  obtain ⟨c0, c1, c2, _⟩ := translate_some_elim h
  unfold mapPT
  rw [fpc_valid_valid c0 c1]
  simp only [c2, if_true]

/-- `unmap` panics (`none`) when the vpn is not mapped. -/
theorem unmapPT_unmapped_panics {s : PT} {vpn : Nat}
    (hinv : Inv s) (hnf : s.nextFree + 2 ≤ 2 ^ 44)
    (h : translatePT s vpn = none) :
    unmapPT s vpn = none := by
  by_cases c0 : pteValid (s.mem s.root (idx0 vpn)) = true
  · by_cases c1 : pteValid (s.mem (ptePpn (s.mem s.root (idx0 vpn))) (idx1 vpn)) = true
    · have c2 : pteValid (s.mem (ptePpn (s.mem (ptePpn (s.mem s.root (idx0 vpn)))
          (idx1 vpn))) (idx2 vpn)) = false := by
        by_contra hc
        rw [translatePT] at h
        simp only [c0, if_true, c1] at h
        rw [if_pos (by simpa using hc)] at h
        exact absurd h (by simp)
      unfold unmapPT
      rw [fpc_valid_valid c0 c1]
      simp only [c2, Bool.false_eq_true, if_false]
    · -- the level-1 PTE is invalid: a fresh zeroed leaf table is
      -- created, whose leaf PTE is 0
      have hn1 : Node1 s (idx0 vpn) = some (ptePpn (s.mem s.root (idx0 vpn))) := by
        simp [Node1, c0]
      obtain ⟨hn1lt, _⟩ := hinv.2.1 _ _ hn1
      unfold unmapPT
      rw [fpc_valid_invalid c0 (by simpa using c1) (by omega)]
      have hleaf : (writeCell (zeroFrame s.mem s.nextFree)
          (ptePpn (s.mem s.root (idx0 vpn))) (idx1 vpn) (mkPTE s.nextFree 1))
          s.nextFree (idx2 vpn) = 0 := by
        rw [writeCell_ne_frame _ _ _ _ (by omega)]
        exact zeroFrame_self _ _ _
      simp only [hleaf, pteValid_zero, Bool.false_eq_true, if_false]
  · unfold unmapPT
    rw [fpc_invalid (by simpa using c0) hinv.1 (by omega)]
    have hleaf : (writeCell
        (zeroFrame
          (writeCell (zeroFrame s.mem s.nextFree) s.root (idx0 vpn)
            (mkPTE s.nextFree 1))
          (s.nextFree + 1))
        s.nextFree (idx1 vpn) (mkPTE (s.nextFree + 1) 1))
        (s.nextFree + 1) (idx2 vpn) = 0 := by
      rw [writeCell_ne_frame _ _ _ _ (by omega)]
      exact zeroFrame_self _ _ _
    simp only [hleaf, pteValid_zero, Bool.false_eq_true, if_false]

end Neuclear

namespace Neuclear

/-- After a successful `unmap(vpn)`, `translate(vpn)` is `none`. -/
theorem unmapPT_translate_none {s : PT} {vpn p : Nat}
    (hinv : Inv s) (h : translatePT s vpn = some p) :
    ∃ s', unmapPT s vpn = some s' ∧ translatePT s' vpn = none := by
  obtain ⟨c0, c1, c2, _⟩ := translate_some_elim h
  have hn1 : Node1 s (idx0 vpn) = some (ptePpn (s.mem s.root (idx0 vpn))) := by
    simp [Node1, c0]
  have hn2 : Node2 s (idx0 vpn) (idx1 vpn) =
      some (ptePpn (s.mem (ptePpn (s.mem s.root (idx0 vpn))) (idx1 vpn))) := by
    simp [Node2, hn1, c1]
  obtain ⟨_, hn2root⟩ := hinv.2.2.1 _ _ _ hn2
  have hn12 : ptePpn (s.mem s.root (idx0 vpn)) ≠
      ptePpn (s.mem (ptePpn (s.mem s.root (idx0 vpn))) (idx1 vpn)) := by
    intro he
    rw [he] at hn1
    exact hinv.2.2.2.2.2 _ _ _ _ hn1 hn2
  refine ⟨⟨s.root, writeCell s.mem
      (ptePpn (s.mem (ptePpn (s.mem s.root (idx0 vpn))) (idx1 vpn))) (idx2 vpn) 0,
      s.nextFree⟩, ?_, ?_⟩
  · unfold unmapPT
    rw [fpc_valid_valid c0 c1]
    simp only [c2, if_true]
  · unfold translatePT
    simp only
    rw [writeCell_ne_frame _ _ _ _ (Ne.symm hn2root), if_pos c0]
    rw [writeCell_ne_frame _ _ _ _ hn12, if_pos c1]
    rw [writeCell_self]
    simp [pteValid_zero]

/-- After a successful `map(vpn, ppn, flags)`, `translate(vpn)`
returns `ppn` and the leaf PTE carries at least the requested
flags. -/
theorem mapPT_translate {s : PT} {vpn ppn flags : Nat}
    (hinv : Inv s) (hnf : s.nextFree + 2 ≤ 2 ^ 44)
    (hppn : ppn < 2 ^ 44) (hflags : flags < 256)
    (h : translatePT s vpn = none) :
    ∃ s', mapPT s vpn ppn flags = some s' ∧
      translatePT s' vpn = some ppn ∧
      translateFlags s' vpn = some ((flags ||| 1) % 256) := by
  have hvalidleaf : pteValid (mkPTE ppn (flags ||| 1)) = true :=
    pteValid_mkPTE_or_one ppn flags
  have hppnleaf : ptePpn (mkPTE ppn (flags ||| 1)) = ppn := ptePpn_mkPTE _ hppn
  have hflagsleaf : pteFlags (mkPTE ppn (flags ||| 1)) = (flags ||| 1) % 256 :=
    pteFlags_mkPTE _ _
  by_cases c0 : pteValid (s.mem s.root (idx0 vpn)) = true
  · have hn1 : Node1 s (idx0 vpn) = some (ptePpn (s.mem s.root (idx0 vpn))) := by
      simp [Node1, c0]
    obtain ⟨hn1lt, hn1root⟩ := hinv.2.1 _ _ hn1
    by_cases c1 : pteValid (s.mem (ptePpn (s.mem s.root (idx0 vpn))) (idx1 vpn)) = true
    · -- existing leaf table; its PTE for vpn must be invalid
      have c2 : pteValid (s.mem (ptePpn (s.mem (ptePpn (s.mem s.root (idx0 vpn)))
          (idx1 vpn))) (idx2 vpn)) = false := by
        by_contra hc
        rw [translatePT] at h
        simp only [c0, if_true, c1] at h
        rw [if_pos (by simpa using hc)] at h
        exact absurd h (by simp)
      have hn2 : Node2 s (idx0 vpn) (idx1 vpn) =
          some (ptePpn (s.mem (ptePpn (s.mem s.root (idx0 vpn))) (idx1 vpn))) := by
        simp [Node2, hn1, c1]
      obtain ⟨_, hn2root⟩ := hinv.2.2.1 _ _ _ hn2
      have hn12 : ptePpn (s.mem s.root (idx0 vpn)) ≠
          ptePpn (s.mem (ptePpn (s.mem s.root (idx0 vpn))) (idx1 vpn)) := by
        intro he
        rw [he] at hn1
        exact hinv.2.2.2.2.2 _ _ _ _ hn1 hn2
      refine ⟨⟨s.root, writeCell s.mem
          (ptePpn (s.mem (ptePpn (s.mem s.root (idx0 vpn))) (idx1 vpn))) (idx2 vpn)
          (mkPTE ppn (flags ||| 1)), s.nextFree⟩, ?_, ?_, ?_⟩
      · unfold mapPT
        rw [fpc_valid_valid c0 c1]
        simp only [c2, Bool.false_eq_true, if_false]
      · unfold translatePT
        simp only
        rw [writeCell_ne_frame _ _ _ _ (Ne.symm hn2root), if_pos c0]
        rw [writeCell_ne_frame _ _ _ _ hn12, if_pos c1]
        rw [writeCell_self, if_pos hvalidleaf, hppnleaf]
      · unfold translateFlags
        simp only
        rw [writeCell_ne_frame _ _ _ _ (Ne.symm hn2root), if_pos c0]
        rw [writeCell_ne_frame _ _ _ _ hn12, if_pos c1]
        rw [writeCell_self, if_pos hvalidleaf, hflagsleaf]
    · -- a fresh zeroed leaf table is allocated and linked
      set n1 := ptePpn (s.mem s.root (idx0 vpn)) with hn1def
      set f := s.nextFree with hfdef
      have hroot : s.root < s.nextFree := hinv.1
      have hleaf0 : (writeCell (zeroFrame s.mem f) n1 (idx1 vpn) (mkPTE f 1))
          f (idx2 vpn) = 0 := by
        rw [writeCell_ne_frame _ _ _ _ (by omega)]
        exact zeroFrame_self _ _ _
      refine ⟨⟨s.root,
          writeCell (writeCell (zeroFrame s.mem f) n1 (idx1 vpn) (mkPTE f 1))
            f (idx2 vpn) (mkPTE ppn (flags ||| 1)), f + 1⟩, ?_, ?_, ?_⟩
      · unfold mapPT
        rw [fpc_valid_invalid c0 (by simpa using c1) (by omega)]
        simp only [hleaf0, pteValid_zero, Bool.false_eq_true, if_false]
      · unfold translatePT
        simp only
        rw [writeCell_ne_frame _ _ _ _ (by omega : s.root ≠ f),
          writeCell_ne_frame _ _ _ _ (Ne.symm hn1root),
          zeroFrame_ne _ _ (by omega : s.root ≠ f), if_pos c0]
        rw [writeCell_ne_frame _ _ _ _ (by omega : n1 ≠ f),
          writeCell_self, if_pos (pteValid_mkPTE_one f),
          ptePpn_mkPTE 1 (by omega : f < 2 ^ 44)]
        rw [writeCell_self, if_pos hvalidleaf, hppnleaf]
      · unfold translateFlags
        simp only
        rw [writeCell_ne_frame _ _ _ _ (by omega : s.root ≠ f),
          writeCell_ne_frame _ _ _ _ (Ne.symm hn1root),
          zeroFrame_ne _ _ (by omega : s.root ≠ f), if_pos c0]
        rw [writeCell_ne_frame _ _ _ _ (by omega : n1 ≠ f),
          writeCell_self, if_pos (pteValid_mkPTE_one f),
          ptePpn_mkPTE 1 (by omega : f < 2 ^ 44)]
        rw [writeCell_self, if_pos hvalidleaf, hflagsleaf]
  · -- both intermediate levels are created fresh
    set f1 := s.nextFree with hf1def
    set f2 := s.nextFree + 1 with hf2def
    have hroot := hinv.1
    have hleaf0 : (writeCell
        (zeroFrame
          (writeCell (zeroFrame s.mem f1) s.root (idx0 vpn) (mkPTE f1 1)) f2)
        f1 (idx1 vpn) (mkPTE f2 1)) f2 (idx2 vpn) = 0 := by
      rw [writeCell_ne_frame _ _ _ _ (by omega)]
      exact zeroFrame_self _ _ _
    refine ⟨⟨s.root,
        writeCell
          (writeCell
            (zeroFrame
              (writeCell (zeroFrame s.mem f1) s.root (idx0 vpn) (mkPTE f1 1)) f2)
            f1 (idx1 vpn) (mkPTE f2 1))
          f2 (idx2 vpn) (mkPTE ppn (flags ||| 1)), s.nextFree + 2⟩, ?_, ?_, ?_⟩
    · unfold mapPT
      rw [fpc_invalid (by simpa using c0) hroot (by omega)]
      simp only [hleaf0, pteValid_zero, Bool.false_eq_true, if_false]
    · unfold translatePT
      simp only
      rw [writeCell_ne_frame _ _ _ _ (by omega : s.root ≠ f2),
        writeCell_ne_frame _ _ _ _ (by omega : s.root ≠ f1),
        zeroFrame_ne _ _ (by omega : s.root ≠ f2),
        writeCell_self, if_pos (pteValid_mkPTE_one f1),
        ptePpn_mkPTE 1 (by omega : f1 < 2 ^ 44)]
      rw [writeCell_ne_frame _ _ _ _ (by omega : f1 ≠ f2),
        writeCell_self, if_pos (pteValid_mkPTE_one f2),
        ptePpn_mkPTE 1 (by omega : f2 < 2 ^ 44)]
      rw [writeCell_self, if_pos hvalidleaf, hppnleaf]
    · unfold translateFlags
      simp only
      rw [writeCell_ne_frame _ _ _ _ (by omega : s.root ≠ f2),
        writeCell_ne_frame _ _ _ _ (by omega : s.root ≠ f1),
        zeroFrame_ne _ _ (by omega : s.root ≠ f2),
        writeCell_self, if_pos (pteValid_mkPTE_one f1),
        ptePpn_mkPTE 1 (by omega : f1 < 2 ^ 44)]
      rw [writeCell_ne_frame _ _ _ _ (by omega : f1 ≠ f2),
        writeCell_self, if_pos (pteValid_mkPTE_one f2),
        ptePpn_mkPTE 1 (by omega : f2 < 2 ^ 44)]
      rw [writeCell_self, if_pos hvalidleaf, hflagsleaf]

end Neuclear

namespace Neuclear

/-- Shape of a successful `map` when both intermediate PTEs already
exist: one leaf write into the existing level-2 table. -/
theorem mapPT_shape_valid_valid {s : PT} {vpn ppn flags : Nat}
    (c0 : pteValid (s.mem s.root (idx0 vpn)) = true)
    (c1 : pteValid (s.mem (ptePpn (s.mem s.root (idx0 vpn))) (idx1 vpn)) = true)
    (c2 : pteValid (s.mem (ptePpn (s.mem (ptePpn (s.mem s.root (idx0 vpn)))
      (idx1 vpn))) (idx2 vpn)) = false) :
    mapPT s vpn ppn flags = some ⟨s.root,
      writeCell s.mem (ptePpn (s.mem (ptePpn (s.mem s.root (idx0 vpn))) (idx1 vpn)))
        (idx2 vpn) (mkPTE ppn (flags ||| 1)), s.nextFree⟩ := by
  unfold mapPT
  rw [fpc_valid_valid c0 c1]
  simp only [c2, Bool.false_eq_true, if_false]

/-- Shape of a successful `map` when the level-1 PTE is missing: a
fresh zeroed leaf table is linked, then the leaf is written. -/
theorem mapPT_shape_valid_invalid {s : PT} {vpn ppn flags : Nat}
    (c0 : pteValid (s.mem s.root (idx0 vpn)) = true)
    (c1 : pteValid (s.mem (ptePpn (s.mem s.root (idx0 vpn))) (idx1 vpn)) = false)
    (hn1lt : ptePpn (s.mem s.root (idx0 vpn)) < s.nextFree)
    (hnf : s.nextFree < 2 ^ 44) :
    mapPT s vpn ppn flags = some ⟨s.root,
      writeCell
        (writeCell (zeroFrame s.mem s.nextFree)
          (ptePpn (s.mem s.root (idx0 vpn))) (idx1 vpn) (mkPTE s.nextFree 1))
        s.nextFree (idx2 vpn) (mkPTE ppn (flags ||| 1)),
      s.nextFree + 1⟩ := by
  have hleaf0 : (writeCell (zeroFrame s.mem s.nextFree)
      (ptePpn (s.mem s.root (idx0 vpn))) (idx1 vpn) (mkPTE s.nextFree 1))
      s.nextFree (idx2 vpn) = 0 := by
    rw [writeCell_ne_frame _ _ _ _ (by omega)]
    exact zeroFrame_self _ _ _
  unfold mapPT
  rw [fpc_valid_invalid c0 c1 hnf]
  simp only [hleaf0, pteValid_zero, Bool.false_eq_true, if_false]

/-- Shape of a successful `map` when even the root PTE is missing:
two fresh zeroed tables are linked, then the leaf is written. -/
theorem mapPT_shape_invalid {s : PT} {vpn ppn flags : Nat}
    (c0 : pteValid (s.mem s.root (idx0 vpn)) = false)
    (hroot : s.root < s.nextFree)
    (hnf : s.nextFree + 1 < 2 ^ 44) :
    mapPT s vpn ppn flags = some ⟨s.root,
      writeCell
        (writeCell
          (zeroFrame
            (writeCell (zeroFrame s.mem s.nextFree) s.root (idx0 vpn)
              (mkPTE s.nextFree 1))
            (s.nextFree + 1))
          s.nextFree (idx1 vpn) (mkPTE (s.nextFree + 1) 1))
        (s.nextFree + 1) (idx2 vpn) (mkPTE ppn (flags ||| 1)),
      s.nextFree + 2⟩ := by
  have hleaf0 : (writeCell
      (zeroFrame
        (writeCell (zeroFrame s.mem s.nextFree) s.root (idx0 vpn)
          (mkPTE s.nextFree 1))
        (s.nextFree + 1))
      s.nextFree (idx1 vpn) (mkPTE (s.nextFree + 1) 1))
      (s.nextFree + 1) (idx2 vpn) = 0 := by
    rw [writeCell_ne_frame _ _ _ _ (by omega)]
    exact zeroFrame_self _ _ _
  unfold mapPT
  rw [fpc_invalid c0 hroot hnf]
  simp only [hleaf0, pteValid_zero, Bool.false_eq_true, if_false]

end Neuclear

namespace Neuclear

/-- `map(vpn', ...)` does not perturb `translate(vpn)` for any other
`vpn` (the table is a tree, fresh frames are zeroed, so the only cells
`map` touches are off `vpn`'s walk, or both walks already ended in an
invalid entry). -/
theorem mapPT_no_perturb {s : PT} {vpn vpn' ppn flags : Nat}
    (hinv : Inv s) (hnf : s.nextFree + 2 ≤ 2 ^ 44)
    (hvpn : vpn < 2 ^ 27) (hvpn' : vpn' < 2 ^ 27) (hne : vpn ≠ vpn')
    {s' : PT} (h : mapPT s vpn' ppn flags = some s') :
    translatePT s' vpn = translatePT s vpn := by
  have hroot := hinv.1
  by_cases c0' : pteValid (s.mem s.root (idx0 vpn')) = true
  · have hn1' : Node1 s (idx0 vpn') =
        some (ptePpn (s.mem s.root (idx0 vpn'))) := by
      simp [Node1, c0']
    obtain ⟨hn1'lt, hn1'root⟩ := hinv.2.1 _ _ hn1'
    by_cases c1' : pteValid (s.mem (ptePpn (s.mem s.root (idx0 vpn')))
        (idx1 vpn')) = true
    · -- the whole walk for vpn' already exists: one leaf write
      have hn2' : Node2 s (idx0 vpn') (idx1 vpn') =
          some (ptePpn (s.mem (ptePpn (s.mem s.root (idx0 vpn'))) (idx1 vpn'))) := by
        simp [Node2, hn1', c1']
      obtain ⟨hn2'lt, hn2'root⟩ := hinv.2.2.1 _ _ _ hn2'
      by_cases c2' : pteValid (s.mem (ptePpn (s.mem (ptePpn (s.mem s.root
          (idx0 vpn'))) (idx1 vpn'))) (idx2 vpn')) = true
      · have hsome : translatePT s vpn' = some (ptePpn (s.mem (ptePpn (s.mem
            (ptePpn (s.mem s.root (idx0 vpn'))) (idx1 vpn'))) (idx2 vpn'))) := by
          unfold translatePT
          rw [if_pos c0', if_pos c1', if_pos c2']
        rw [mapPT_mapped_panics hsome] at h
        exact absurd h (by simp)
      · rw [mapPT_shape_valid_valid c0' c1' (by simpa using c2')] at h
        injection h with h
        subst h
        refine translatePT_congr rfl ?_ ?_ ?_
        · simp only
          exact writeCell_ne_frame _ _ _ _ (Ne.symm hn2'root)
        · intro c0
          simp only
          have hn1 : Node1 s (idx0 vpn) =
              some (ptePpn (s.mem s.root (idx0 vpn))) := by
            simp [Node1, c0]
          have hne1 : ptePpn (s.mem s.root (idx0 vpn)) ≠
              ptePpn (s.mem (ptePpn (s.mem s.root (idx0 vpn'))) (idx1 vpn')) := by
            intro he
            rw [he] at hn1
            exact hinv.2.2.2.2.2 _ _ _ _ hn1 hn2'
          exact writeCell_ne_frame _ _ _ _ hne1
        · intro c0 c1
          simp only
          have hn1 : Node1 s (idx0 vpn) =
              some (ptePpn (s.mem s.root (idx0 vpn))) := by
            simp [Node1, c0]
          have hn2 : Node2 s (idx0 vpn) (idx1 vpn) =
              some (ptePpn (s.mem (ptePpn (s.mem s.root (idx0 vpn))) (idx1 vpn))) := by
            simp [Node2, hn1, c1]
          by_cases hij : idx0 vpn = idx0 vpn' ∧ idx1 vpn = idx1 vpn'
          · obtain ⟨hi0, hi1⟩ := hij
            have hi2 : idx2 vpn ≠ idx2 vpn' := fun he =>
              hne (vpn_ext hvpn hvpn' hi0 hi1 he)
            rw [hi0, hi1]
            exact writeCell_ne_idx _ _ _ _ hi2
          · have hne2 : ptePpn (s.mem (ptePpn (s.mem s.root (idx0 vpn))) (idx1 vpn)) ≠
                ptePpn (s.mem (ptePpn (s.mem s.root (idx0 vpn'))) (idx1 vpn')) := by
              intro he
              rw [he] at hn2
              have hinj := hinv.2.2.2.2.1 _ _ _ _ _ hn2 hn2'
              exact hij ⟨hinj.1, hinj.2⟩
            exact writeCell_ne_frame _ _ _ _ hne2
    · -- level-1 PTE for vpn' missing: fresh leaf table `f = nextFree`
      rw [mapPT_shape_valid_invalid c0' (by simpa using c1') hn1'lt (by omega)] at h
      injection h with h
      subst h
      by_cases hij : idx0 vpn = idx0 vpn' ∧ idx1 vpn = idx1 vpn'
      · -- the two walks shared the missing level-1 PTE: both `none`
        obtain ⟨hi0, hi1⟩ := hij
        have hi2 : idx2 vpn ≠ idx2 vpn' := fun he =>
          hne (vpn_ext hvpn hvpn' hi0 hi1 he)
        have htv : translatePT s vpn = none := by
          unfold translatePT
          rw [hi0, hi1, if_pos c0']
          simp [c1']
        rw [htv]
        unfold translatePT
        simp only
        rw [hi0, hi1]
        rw [writeCell_ne_frame _ _ _ _ (by omega : s.root ≠ s.nextFree),
          writeCell_ne_frame _ _ _ _ (Ne.symm hn1'root),
          zeroFrame_ne _ _ (by omega : s.root ≠ s.nextFree), if_pos c0']
        rw [writeCell_ne_frame _ _ _ _ (by omega :
            ptePpn (s.mem s.root (idx0 vpn')) ≠ s.nextFree),
          writeCell_self, if_pos (pteValid_mkPTE_one _),
          ptePpn_mkPTE 1 (by omega : s.nextFree < 2 ^ 44)]
        rw [writeCell_ne_idx _ _ _ _ hi2,
          writeCell_ne_frame _ _ _ _ (by omega :
            s.nextFree ≠ ptePpn (s.mem s.root (idx0 vpn'))),
          zeroFrame_self]
        simp [pteValid_zero]
      · -- vpn's walk is untouched
        refine translatePT_congr rfl ?_ ?_ ?_
        · simp only
          rw [writeCell_ne_frame _ _ _ _ (by omega : s.root ≠ s.nextFree),
            writeCell_ne_frame _ _ _ _ (Ne.symm hn1'root),
            zeroFrame_ne _ _ (by omega : s.root ≠ s.nextFree)]
        · intro c0
          simp only
          have hn1 : Node1 s (idx0 vpn) =
              some (ptePpn (s.mem s.root (idx0 vpn))) := by
            simp [Node1, c0]
          obtain ⟨hn1lt, _⟩ := hinv.2.1 _ _ hn1
          by_cases hi0 : idx0 vpn = idx0 vpn'
          · have hi1 : idx1 vpn ≠ idx1 vpn' := fun he => hij ⟨hi0, he⟩
            rw [hi0]
            rw [writeCell_ne_frame _ _ _ _ (by omega :
                ptePpn (s.mem s.root (idx0 vpn')) ≠ s.nextFree)]
            rw [writeCell_ne_idx _ _ _ _ hi1,
              zeroFrame_ne _ _ (by omega :
                ptePpn (s.mem s.root (idx0 vpn')) ≠ s.nextFree)]
          · have hne1 : ptePpn (s.mem s.root (idx0 vpn)) ≠
                ptePpn (s.mem s.root (idx0 vpn')) := by
              intro he
              rw [he] at hn1
              exact hi0 (hinv.2.2.2.1 _ _ _ hn1 hn1')
            rw [writeCell_ne_frame _ _ _ _ (by omega :
                ptePpn (s.mem s.root (idx0 vpn)) ≠ s.nextFree),
              writeCell_ne_frame _ _ _ _ hne1,
              zeroFrame_ne _ _ (by omega :
                ptePpn (s.mem s.root (idx0 vpn)) ≠ s.nextFree)]
        · intro c0 c1
          simp only
          have hn1 : Node1 s (idx0 vpn) =
              some (ptePpn (s.mem s.root (idx0 vpn))) := by
            simp [Node1, c0]
          have hn2 : Node2 s (idx0 vpn) (idx1 vpn) =
              some (ptePpn (s.mem (ptePpn (s.mem s.root (idx0 vpn))) (idx1 vpn))) := by
            simp [Node2, hn1, c1]
          obtain ⟨hn2lt, _⟩ := hinv.2.2.1 _ _ _ hn2
          have hne21 : ptePpn (s.mem (ptePpn (s.mem s.root (idx0 vpn))) (idx1 vpn)) ≠
              ptePpn (s.mem s.root (idx0 vpn')) := by
            intro he
            rw [← he] at hn1'
            exact hinv.2.2.2.2.2 _ _ _ _ hn1' hn2
          rw [writeCell_ne_frame _ _ _ _ (by omega :
              ptePpn (s.mem (ptePpn (s.mem s.root (idx0 vpn))) (idx1 vpn)) ≠ s.nextFree),
            writeCell_ne_frame _ _ _ _ hne21,
            zeroFrame_ne _ _ (by omega :
              ptePpn (s.mem (ptePpn (s.mem s.root (idx0 vpn))) (idx1 vpn)) ≠ s.nextFree)]
  · -- even the root PTE for vpn' is missing: two fresh tables
    rw [mapPT_shape_invalid (by simpa using c0') hroot (by omega)] at h
    injection h with h
    subst h
    by_cases hi0 : idx0 vpn = idx0 vpn'
    · -- shared missing root PTE: both `none`
      have c0 : pteValid (s.mem s.root (idx0 vpn)) = false := by
        rw [hi0]; simpa using c0'
      have htv : translatePT s vpn = none := by
        unfold translatePT
        simp [c0]
      rw [htv]
      unfold translatePT
      simp only
      rw [hi0]
      rw [writeCell_ne_frame _ _ _ _ (by omega : s.root ≠ s.nextFree + 1),
        writeCell_ne_frame _ _ _ _ (by omega : s.root ≠ s.nextFree),
        zeroFrame_ne _ _ (by omega : s.root ≠ s.nextFree + 1),
        writeCell_self, if_pos (pteValid_mkPTE_one _),
        ptePpn_mkPTE 1 (by omega : s.nextFree < 2 ^ 44)]
      by_cases hi1 : idx1 vpn = idx1 vpn'
      · rw [hi1]
        rw [writeCell_ne_frame _ _ _ _ (by omega : s.nextFree ≠ s.nextFree + 1),
          writeCell_self, if_pos (pteValid_mkPTE_one _),
          ptePpn_mkPTE 1 (by omega : s.nextFree + 1 < 2 ^ 44)]
        have hi2 : idx2 vpn ≠ idx2 vpn' := fun he =>
          hne (vpn_ext hvpn hvpn' hi0 hi1 he)
        rw [writeCell_ne_idx _ _ _ _ hi2,
          writeCell_ne_frame _ _ _ _ (by omega : s.nextFree + 1 ≠ s.nextFree),
          zeroFrame_self]
        simp [pteValid_zero]
      · rw [writeCell_ne_frame _ _ _ _ (by omega : s.nextFree ≠ s.nextFree + 1),
          writeCell_ne_idx _ _ _ _ hi1,
          zeroFrame_ne _ _ (by omega : s.nextFree ≠ s.nextFree + 1),
          writeCell_ne_frame _ _ _ _ (by omega : s.nextFree ≠ s.root),
          zeroFrame_self]
        simp [pteValid_zero]
    · -- vpn's walk is untouched
      refine translatePT_congr rfl ?_ ?_ ?_
      · simp only
        rw [writeCell_ne_frame _ _ _ _ (by omega : s.root ≠ s.nextFree + 1),
          writeCell_ne_frame _ _ _ _ (by omega : s.root ≠ s.nextFree),
          zeroFrame_ne _ _ (by omega : s.root ≠ s.nextFree + 1),
          writeCell_ne_idx _ _ _ _ hi0,
          zeroFrame_ne _ _ (by omega : s.root ≠ s.nextFree)]
      · intro c0
        simp only
        have hn1 : Node1 s (idx0 vpn) =
            some (ptePpn (s.mem s.root (idx0 vpn))) := by
          simp [Node1, c0]
        obtain ⟨hn1lt, hn1root⟩ := hinv.2.1 _ _ hn1
        rw [writeCell_ne_frame _ _ _ _ (by omega :
            ptePpn (s.mem s.root (idx0 vpn)) ≠ s.nextFree + 1),
          writeCell_ne_frame _ _ _ _ (by omega :
            ptePpn (s.mem s.root (idx0 vpn)) ≠ s.nextFree),
          zeroFrame_ne _ _ (by omega :
            ptePpn (s.mem s.root (idx0 vpn)) ≠ s.nextFree + 1),
          writeCell_ne_frame _ _ _ _ hn1root,
          zeroFrame_ne _ _ (by omega :
            ptePpn (s.mem s.root (idx0 vpn)) ≠ s.nextFree)]
      · intro c0 c1
        simp only
        have hn1 : Node1 s (idx0 vpn) =
            some (ptePpn (s.mem s.root (idx0 vpn))) := by
          simp [Node1, c0]
        have hn2 : Node2 s (idx0 vpn) (idx1 vpn) =
            some (ptePpn (s.mem (ptePpn (s.mem s.root (idx0 vpn))) (idx1 vpn))) := by
          simp [Node2, hn1, c1]
        obtain ⟨hn2lt, hn2root⟩ := hinv.2.2.1 _ _ _ hn2
        rw [writeCell_ne_frame _ _ _ _ (by omega :
            ptePpn (s.mem (ptePpn (s.mem s.root (idx0 vpn))) (idx1 vpn)) ≠ s.nextFree + 1),
          writeCell_ne_frame _ _ _ _ (by omega :
            ptePpn (s.mem (ptePpn (s.mem s.root (idx0 vpn))) (idx1 vpn)) ≠ s.nextFree),
          zeroFrame_ne _ _ (by omega :
            ptePpn (s.mem (ptePpn (s.mem s.root (idx0 vpn))) (idx1 vpn)) ≠ s.nextFree + 1),
          writeCell_ne_frame _ _ _ _ hn2root,
          zeroFrame_ne _ _ (by omega :
            ptePpn (s.mem (ptePpn (s.mem s.root (idx0 vpn))) (idx1 vpn)) ≠ s.nextFree)]

end Neuclear

namespace Neuclear

theorem or_one_and_self (f : Nat) : (f ||| 1) &&& f = f := by
  apply Nat.eq_of_testBit_eq
  intro j
  simp only [Nat.testBit_and, Nat.testBit_or]
  cases h : f.testBit j <;> simp [h]

/-- The freshly created page table (one zeroed root frame) is
well-formed. -/
theorem Inv_newPT : Inv newPT := by
  refine ⟨by norm_num [newPT], ?_, ?_, ?_, ?_, ?_⟩
  · intro i n h
    simp [Node1, newPT, pteValid] at h
  · intro i j n h
    simp [Node2, Node1, newPT, pteValid] at h
  · intro i i' n h _
    simp [Node1, newPT, pteValid] at h
  · intro i j i' j' n h _
    simp [Node2, Node1, newPT, pteValid] at h
  · intro i i' j' n h _
    simp [Node1, newPT, pteValid] at h

/-- C1: for a well-formed Sv39 page table: after `map(vpn, ppn,
flags)` succeeds, `translate(vpn)` returns `Some(ppn)` and the leaf
PTE carries at least the requested flags; after `unmap(vpn)`,
`translate(vpn)` is `None`; mapping any other `vpn'` leaves
`translate(vpn)` unchanged; `map` panics if the leaf PTE is already
valid and `unmap` panics if it is not. -/
theorem sound_page_table (s : PT) (vpn vpn' ppn flags : Nat)
    (hinv : Inv s) (hnf : s.nextFree + 2 ≤ 2 ^ 44)
    (hvpn : vpn < 2 ^ 27) (hvpn' : vpn' < 2 ^ 27)
    (hppn : ppn < 2 ^ 44) (hflags : flags < 256) :
    (translatePT s vpn = none →
      ∃ s', mapPT s vpn ppn flags = some s' ∧
        translatePT s' vpn = some ppn ∧
        ∃ fb, translateFlags s' vpn = some fb ∧ fb &&& flags = flags) ∧
    (∀ p, translatePT s vpn = some p →
      ∃ s', unmapPT s vpn = some s' ∧ translatePT s' vpn = none) ∧
    (vpn ≠ vpn' → ∀ s', mapPT s vpn' ppn flags = some s' →
      translatePT s' vpn = translatePT s vpn) ∧
    (∀ p, translatePT s vpn = some p → mapPT s vpn ppn flags = none) ∧
    (translatePT s vpn = none → unmapPT s vpn = none) := by
  refine ⟨?_, ?_, ?_, ?_, ?_⟩
  · intro hnone
    obtain ⟨s', hmap, htrans, hflag⟩ := mapPT_translate hinv hnf hppn hflags hnone
    refine ⟨s', hmap, htrans, (flags ||| 1) % 256, hflag, ?_⟩
    have hor : flags ||| 1 < 256 := by
      have h256 : (256 : Nat) = 2 ^ 8 := by norm_num
      rw [h256] at hflags ⊢
      exact Nat.or_lt_two_pow hflags (by norm_num)
    rw [Nat.mod_eq_of_lt hor]
    exact or_one_and_self flags
  · intro p hp
    exact unmapPT_translate_none hinv hp
  · intro hne s' hmap
    exact mapPT_no_perturb hinv hnf hvpn hvpn' hne hmap
  · intro p hp
    exact mapPT_mapped_panics hp
  · intro hnone
    exact unmapPT_unmapped_panics hinv hnf hnone

/-- Witness for `sound_page_table`: in a fresh page table, mapping
vpn 5 to ppn 42 with flags `R` (= 2) succeeds and translates back with
the flag set. -/
theorem sound_page_table_witness :
    translatePT newPT 5 = none ∧
    (∃ s', mapPT newPT 5 42 2 = some s' ∧
      translatePT s' 5 = some 42 ∧
      ∃ fb, translateFlags s' 5 = some fb ∧ fb &&& 2 = 2) :=
  ⟨rfl,
   (sound_page_table newPT 5 6 42 2 Inv_newPT (by norm_num [newPT])
     (by norm_num) (by norm_num) (by norm_num) (by norm_num)).1 rfl⟩

end Neuclear
